import Mathlib

/-!
# skbn: the container-file adapter (`pkg/skbn/kube.go`)

A shallow embedding of the Kubernetes side of skbn: the path grammar
(`validateK8sPath`, `initK8sVariables`, `getAbsPath`) and the four retrying
operations over the exec transport (`GetListOfFilesFromK8s`, `DownloadFromK8s`,
`Clean`, `UploadToK8s`).

Go strings are modelled as lists of characters.  The Go standard-library
functions the code calls (`strings.Split`, `strings.Replace`, `strings.Contains`,
`filepath.Clean`, `filepath.Join`, `filepath.Dir`, `filepath.Split`, `fmt.Errorf`)
are modelled after their Unix implementations.  The remote exec call `Exec` is an
abstract transport: a transition function on an arbitrary transport state that
answers every call with standard-error bytes, an optional error and the bytes
written to standard output.  Every operation returns its result together with
the sequence of observable events (exec calls, sleeps, secret probes and log
lines) it produced.
-/

namespace Skbn

/-- A Go string. -/
abbrev Str := List Char

/-! ## package strings -/

/-- The function `strings.Split(s, sep)` for a separator of one byte. -/
def strings.Split (sep : Char) : Str → List Str
  | [] => [[]]
  | c :: rest =>
    if c = sep then [] :: strings.Split sep rest
    else
      match strings.Split sep rest with
      | [] => [[c]]
      | h :: t => (c :: h) :: t

/-- The function `strings.Join(elems, "/")`. -/
def strings.Join : List Str → Str
  | [] => []
  | [e] => e
  | e :: rest => e ++ '/' :: strings.Join rest

/-- The function `strings.Contains(s, substr)`. -/
def strings.Contains : Str → Str → Bool
  | [], substr => substr.isEmpty
  | c :: rest, substr => substr.isPrefixOf (c :: rest) || strings.Contains rest substr

/-- The function `strings.Replace(s, old, "", 1)`: the first occurrence of `old`
is removed from `s`. -/
def strings.Replace : Str → Str → Str
  | [], _ => []
  | c :: rest, old =>
    if old.isPrefixOf (c :: rest) then (c :: rest).drop old.length
    else c :: strings.Replace rest old

/-! ## package path/filepath (Unix) -/

/-- The `..` case of `filepath.Clean`: `out.w--` followed by
`for out.w > dotdot && !IsPathSeparator(out.index(out.w)) { out.w-- }`.
The buffer is kept in reverse, its last byte first. -/
def backtrack (dotdot : Nat) : Str → Str
  | [] => []
  | c :: rest => if dotdot < rest.length ∧ c ≠ '/' then backtrack dotdot rest else rest

/-- The main loop of `filepath.Clean`.  `p` is the unread part `path[r:]`,
`out` the bytes written so far in reverse, `dotdot` the index where `..` must
stop.  Every round consumes at least one byte of `p`. -/
def cleanLoop (rooted : Bool) : Nat → Str → Str → Nat → Str
  | 0, _, out, _ => out
  | _ + 1, [], out, _ => out
  | fuel + 1, c :: rest, out, dotdot =>
    if c = '/' then
      -- empty path element
      cleanLoop rooted fuel rest out dotdot
    else if c = '.' ∧ (rest = [] ∨ rest.head? = some '/') then
      -- . element
      cleanLoop rooted fuel rest out dotdot
    else if c = '.' ∧ rest.head? = some '.' ∧
        (rest.tail = [] ∨ rest.tail.head? = some '/') then
      -- .. element: remove to last separator
      if dotdot < out.length then
        cleanLoop rooted fuel rest.tail (backtrack dotdot out) dotdot
      else if rooted = false then
        cleanLoop rooted fuel rest.tail
          ('.' :: '.' :: (if 0 < out.length then '/' :: out else out))
          (('.' :: '.' :: (if 0 < out.length then '/' :: out else out)).length)
      else
        cleanLoop rooted fuel rest.tail out dotdot
    else
      -- real path element: add slash if needed, copy element
      cleanLoop rooted fuel (rest.dropWhile (fun x => x ≠ '/'))
        ((c :: rest.takeWhile (fun x => x ≠ '/')).reverse ++
          (if (rooted = true ∧ out.length ≠ 1) ∨ (rooted = false ∧ out.length ≠ 0)
            then '/' :: out else out))
        dotdot

/-- The function `filepath.Clean`. -/
def filepath.Clean (path : Str) : Str :=
  match path with
  | [] => ['.']
  | c :: rest =>
    let out :=
      if c = '/' then cleanLoop true path.length rest ['/'] 1
      else cleanLoop false path.length path [] 0
    if out.length = 0 then ['.'] else out.reverse

/-- The function `filepath.Join`. -/
def filepath.Join : List Str → Str
  | [] => []
  | e :: rest => if e ≠ [] then filepath.Clean (strings.Join (e :: rest)) else filepath.Join rest

/-- The function `filepath.Split`: the path up to and including its last
separator, and what follows it. -/
def filepath.Split : Str → Str × Str
  | [] => ([], [])
  | c :: rest =>
    if (filepath.Split rest).1 ≠ [] then (c :: (filepath.Split rest).1, (filepath.Split rest).2)
    else if c = '/' then ([c], rest)
    else ([], c :: rest)

/-- The function `filepath.Dir`. -/
def filepath.Dir (path : Str) : Str := filepath.Clean (filepath.Split path).1

/-! ## package fmt: formatting with no operands -/

/-- The function `parsenum(s, start, end)` of `fmt` on the range `s[start:end]`:
the number read, whether a digit was seen, and the unread part of the range
(nothing after an overflow). -/
def parsenumAux : Nat → Bool → Str → Nat × Bool × Str
  | num, isnum, [] => (num, isnum, [])
  | num, isnum, c :: rest =>
    if '0' ≤ c ∧ c ≤ '9' then
      if 1000000 < num then (0, false, [])
      else parsenumAux (num * 10 + (c.toNat - '0'.toNat)) true rest
    else (num, isnum, c :: rest)

/-- See `parsenumAux`. -/
def parsenum (s : Str) : Nat × Bool × Str := parsenumAux 0 false s

/-- The method `argNumber` of `fmt` when the call has no operands: the unread
format, whether an index `[n]` was found, and whether an index was attempted
(which clears `goodArgNum`, no index being in range). -/
def argNumber (s : Str) : Str × Bool × Bool :=
  match s with
  | '[' :: rest =>
    if s.length < 3 then (rest, false, true)
    else
      match rest.dropWhile (fun x => x ≠ ']') with
      | [] => (rest, false, true)
      | _ :: after =>
        let n := parsenum (rest.takeWhile (fun x => x ≠ ']'))
        (after, n.2.1 && n.2.2.isEmpty, true)
  | _ => (s, false, false)

/-- One formatting directive of `doPrintf` with no operands; `s` is the format
after the `%`.  Returns the text written and the unread format. -/
def directive (s : Str) : Str × Str :=
  -- flags
  let s1 := s.dropWhile (fun c => c = '#' ∨ c = '0' ∨ c = '+' ∨ c = '-' ∨ c = ' ')
  -- explicit argument index
  let a1 := argNumber s1
  -- width: (unread, text written, afterIndex, bad index)
  let w : Str × Str × Bool × Bool :=
    match a1.1 with
    | '*' :: r => (r, "%!(BADWIDTH)".toList, false, a1.2.2)
    | _ =>
      let n := parsenum a1.1
      (n.2.2, [], a1.2.1, a1.2.2 || (a1.2.1 && n.2.1))
  -- precision
  let p : Str × Str × Bool × Bool :=
    match w.1 with
    | '.' :: c :: r =>
      -- `if i+1 < end && format[i] == '.'`: a final `.` is left to be the verb
      let a2 := argNumber (c :: r)
      match a2.1 with
      | '*' :: r2 => (r2, "%!(BADPREC)".toList, false, w.2.2.2 || w.2.2.1 || a2.2.2)
      | _ => ((parsenum a2.1).2.2, [], a2.2.1, w.2.2.2 || w.2.2.1 || a2.2.2)
    | _ => (w.1, [], w.2.2.1, w.2.2.2)
  let a3 : Str × Bool :=
    if p.2.2.1 = false then ((argNumber p.1).1, p.2.2.2 || (argNumber p.1).2.2)
    else (p.1, p.2.2.2)
  match a3.1 with
  | [] => (w.2.1 ++ p.2.1 ++ "%!(NOVERB)".toList, [])
  | verb :: r =>
    if verb = '%' then (w.2.1 ++ p.2.1 ++ ['%'], r)
    else if a3.2 = true then (w.2.1 ++ p.2.1 ++ "%!".toList ++ verb :: "(BADINDEX)".toList, r)
    else (w.2.1 ++ p.2.1 ++ "%!".toList ++ verb :: "(MISSING)".toList, r)

/-- The method `doPrintf(format, nil)` of `fmt`. -/
def doPrintf : Nat → Str → Str
  | 0, _ => []
  | _ + 1, [] => []
  | fuel + 1, c :: rest =>
    if c = '%' then (directive rest).1 ++ doPrintf fuel (directive rest).2
    else c :: doPrintf fuel rest

/-- The message of the error `fmt.Errorf(format)`, called with a format and no
operands. -/
def fmt.Errorf (format : Str) : Str := doPrintf format.length format

/-! ## The exec transport and the observable events -/

/-- What one call of `Exec` returns: the standard-error bytes and the error, and
the bytes the remote process wrote to the standard-output sink. -/
structure Resp where
  stderr : Str
  err : Option Str
  stdout : Str
deriving DecidableEq

/-- The arguments of one call of `Exec`; `stdin` and `stdout` tell whether a
reader and a writer were passed (`stdin != nil`, `stdout != nil`). -/
structure Call where
  ns : Str
  podName : Str
  containerName : Str
  command : List Str
  stdin : Bool
  stdout : Bool
deriving DecidableEq

/-- The exec transport: from its current state and the call, the response and
its next state. -/
abbrev Transport (σ : Type) := σ → Call → Resp × σ

/-- The observable events of an operation. -/
inductive Event where
  | exec (c : Call) (r : Resp)
  | sleep (attempt : Nat)
  | probe (ns : Str)
  | log (msg : Str)
deriving DecidableEq

/-- How one round of a retry loop ends: `continue` with the next loop state, or
`return`. -/
inductive Ctl (S R : Type) where
  | next (s : S)
  | done (r : R)

/-- A Go loop `for cond { body }; return exit`, run for at most `fuel` rounds;
`none` when the rounds are used up. -/
def runLoop {S R : Type} (cond : S → Bool) (body : S → Ctl S R × List Event) (exit : R) :
    Nat → S → Option (R × List Event)
  | 0, _ => none
  | fuel + 1, s =>
    if cond s = true then
      match body s with
      | (Ctl.next s', ev) =>
        match runLoop cond body exit fuel s' with
        | none => none
        | some (r, ev') => some (r, ev ++ ev')
      | (Ctl.done r, ev) => some (r, ev)
    else some (exit, [])

/-- The loop states at the start of the rounds that a loop runs. -/
def loopStates {S R : Type} (cond : S → Bool) (body : S → Ctl S R × List Event) :
    Nat → S → List S
  | 0, _ => []
  | fuel + 1, s =>
    if cond s = true then
      s :: (match (body s).1 with
        | Ctl.next s' => loopStates cond body fuel s'
        | Ctl.done _ => [])
    else []

/-- The constant `attempts := 3` of every retry loop. -/
def attempts : Nat := 3

/-- The loop state of the retry loops of list, read and remove: the attempt
counter and the state of the transport. -/
structure LoopState (σ : Type) where
  attempt : Nat
  tr : σ

/-- The loop state of `UploadToK8s`. -/
structure UploadState (σ : Type) where
  attempt : Nat
  retryWithoutDecryption : Bool
  tr : σ

/-! ## Path grammar -/

/-- The function `validateK8sPath`; `none` is the nil error. -/
def validateK8sPath (pathSplit : List Str) : Option Str :=
  if pathSplit.length ≥ 3 then none
  else some ("illegal path: ".toList ++ filepath.Join pathSplit)

/-- The function `getAbsPath`. -/
def getAbsPath (path : List Str) : Str := filepath.Join ["/".toList, filepath.Join path]

/-- The function `initK8sVariables`.  Every caller validates the split first, so
the segments 0, 1 and 2 exist (on a shorter list the Go code would panic; the
empty string stands in for the missing segment here). -/
def initK8sVariables (split : List Str) : Str × Str × Str × Str :=
  (split.getD 0 [], split.getD 1 [], split.getD 2 [], getAbsPath (split.drop 3))

/-! ## The four operations -/

section Operations

variable {σ : Type}

/-- The loop over `lines` of `GetListOfFilesFromK8s`: every non-empty line is
appended to `outLines` with the first occurrence of `findPath` removed. -/
def outLines (findPath : Str) (lines : List Str) : List Str :=
  lines.foldl
    (fun acc line => if line ≠ [] then acc ++ [strings.Replace line findPath] else acc) []

/-- The failure exit shared by all retry loops:
`if attempt == attempts { return err }; utils.Sleep(attempt); continue`. -/
def retryOrReturn {S R : Type} (attempt : Nat) (err : R) (next : S) (ev : List Event) :
    Ctl S R × List Event :=
  if attempt = attempts then (Ctl.done err, ev)
  else (Ctl.next next, ev ++ [Event.sleep attempt])

/-- The message of the error `fmt.Errorf("STDERR: " + (string)(stderr))`. -/
def stderrError (stderr : Str) : Str := fmt.Errorf ("STDERR: ".toList ++ stderr)

/-- One round of the retry loop of `GetListOfFilesFromK8s`. -/
def listBody (E : Transport σ) (c : Call) (findPath : Str) (s : LoopState σ) :
    Ctl (LoopState σ) (List Str × Option Str) × List Event :=
  let attempt := s.attempt + 1
  let r := (E s.tr c).1
  if r.stderr.length ≠ 0 then
    retryOrReturn attempt ([], some (stderrError r.stderr)) ⟨attempt, (E s.tr c).2⟩
      [Event.exec c r]
  else if r.err ≠ none then
    retryOrReturn attempt ([], r.err) ⟨attempt, (E s.tr c).2⟩ [Event.exec c r]
  else (Ctl.done (outLines findPath (strings.Split '\n' r.stdout), none), [Event.exec c r])

/-- The retry loop of `GetListOfFilesFromK8s` (lines 75 to 106):
`for attempt < attempts { ... }; return nil, nil`. -/
def listLoop (E : Transport σ) (c : Call) (findPath : Str) (fuel : Nat) (s : LoopState σ) :
    Option ((List Str × Option Str) × List Event) :=
  runLoop (fun s => decide (s.attempt < attempts)) (listBody E c findPath) ([], none) fuel s

/-- The function `GetListOfFilesFromK8s`: the returned list and error, and the
events. -/
def GetListOfFilesFromK8s (E : Transport σ) (fuel : Nat) (tr : σ)
    (path findType findName : Str) : Option ((List Str × Option Str) × List Event) :=
  let pSplit := strings.Split '/' path
  match validateK8sPath pSplit with
  | some err => some (([], some err), [])
  | none =>
    let v := initK8sVariables pSplit
    let command := ["find".toList, v.2.2.2, "-type".toList, findType, "-name".toList, findName]
    listLoop E ⟨v.1, v.2.1, v.2.2.1, command, false, true⟩ v.2.2.2 fuel ⟨0, tr⟩

/-- The end of a round of the retry loop of `DownloadFromK8s` and `Clean`
(lines 151 to 154): `if err == nil { return nil }; utils.Sleep(attempt)`. -/
def execRest (c : Call) (attempt : Nat) (r : Resp) (tr : σ) :
    Ctl (LoopState σ) (Option Str) × List Event :=
  if r.err = none then (Ctl.done none, [Event.exec c r])
  else (Ctl.next ⟨attempt, tr⟩, [Event.exec c r, Event.sleep attempt])

/-- One round of the retry loop shared, line for line, by `DownloadFromK8s`
(lines 140 to 154) and `Clean` (lines 177 to 191): standard error and the error
are looked at together only on the last attempt; before it only the error
counts. -/
def execBody (E : Transport σ) (c : Call) (s : LoopState σ) :
    Ctl (LoopState σ) (Option Str) × List Event :=
  let attempt := s.attempt + 1
  let r := (E s.tr c).1
  if attempt = attempts then
    if r.stderr.length ≠ 0 then
      (Ctl.done (some (stderrError r.stderr)), [Event.exec c r])
    else if r.err ≠ none then (Ctl.done r.err, [Event.exec c r])
    else execRest c attempt r (E s.tr c).2
  else execRest c attempt r (E s.tr c).2

/-- The retry loop of `DownloadFromK8s` (lines 139 to 157) and of `Clean`
(lines 176 to 194): `for attempt < attempts { ... }; return nil`. -/
def execLoop (E : Transport σ) (c : Call) (fuel : Nat) (s : LoopState σ) :
    Option (Option Str × List Event) :=
  runLoop (fun s => decide (s.attempt < attempts)) (execBody E c) none fuel s

/-- The command of `DownloadFromK8s`. -/
def downloadCommand (isToBeEncrypted : Bool) (passphrase pathToCopy : Str) : List Str :=
  if isToBeEncrypted = true then
    ["gpg".toList, "--homedir".toList, "/tmp".toList, "--batch".toList,
      "--cipher-algo".toList, "AES256".toList, "--passphrase".toList, passphrase,
      "-o".toList, "-".toList, "--symmetric".toList, pathToCopy]
  else ["cat".toList, pathToCopy]

/-- The function `DownloadFromK8s`; `probe` is `isK8sCryptoEnabled`. -/
def DownloadFromK8s (E : Transport σ) (probe : Str → Bool × Str) (fuel : Nat) (tr : σ)
    (path : Str) : Option (Option Str × List Event) :=
  let pSplit := strings.Split '/' path
  match validateK8sPath pSplit with
  | some err => some (some err, [])
  | none =>
    let v := initK8sVariables pSplit
    let command := downloadCommand (probe v.1).1 (probe v.1).2 v.2.2.2
    match execLoop E ⟨v.1, v.2.1, v.2.2.1, command, false, true⟩ fuel ⟨0, tr⟩ with
    | none => none
    | some (r, ev) => some (r, Event.probe v.1 :: ev)

/-- The function `Clean`. -/
def Clean (E : Transport σ) (fuel : Nat) (tr : σ) (path : Str) :
    Option (Option Str × List Event) :=
  let pSplit := strings.Split '/' path
  match validateK8sPath pSplit with
  | some err => some (some err, [])
  | none =>
    let v := initK8sVariables pSplit
    execLoop E ⟨v.1, v.2.1, v.2.2.1, ["rm".toList, v.2.2.2], false, false⟩ fuel ⟨0, tr⟩

/-- The plain form of the copy step of `UploadToK8s`. -/
def cpCommand (pathToCopy : Str) : List Str :=
  ["cp".toList, "/dev/stdin".toList, pathToCopy]

/-- The decrypting form of the copy step of `UploadToK8s`. -/
def gpgCommand (passphrase pathToCopy : Str) : List Str :=
  ["gpg".toList, "--homedir".toList, "/tmp".toList, "--batch".toList, "--yes".toList,
    "--cipher-algo".toList, "AES256".toList, "--passphrase".toList, passphrase,
    "--output".toList, pathToCopy, "--decrypt".toList, "-".toList]

/-- The token on standard error that triggers the downgrade. -/
def noOpenPGP : Str := "gpg: no valid OpenPGP data found.".toList

/-- The line logged on a downgrade. -/
def retryMsg : Str := "Retry to upload to K8s without decryption".toList

/-- The command of the first step of a round of `UploadToK8s`. -/
def mkdirCommand (dir : Str) : List Str := ["mkdir".toList, "-p".toList, dir]

/-- The command of the second step of a round of `UploadToK8s`. -/
def touchCommand (pathToCopy : Str) : List Str := ["touch".toList, pathToCopy]

/-- The call of the first step of a round: `mkdir -p` of the directory of the
target. -/
def mkdirCall (ns podName containerName pathToCopy : Str) : Call :=
  ⟨ns, podName, containerName, mkdirCommand (filepath.Dir pathToCopy), false, false⟩

/-- The call of the second step of a round: `touch` of the target. -/
def touchCall (ns podName containerName pathToCopy : Str) : Call :=
  ⟨ns, podName, containerName, touchCommand pathToCopy, false, false⟩

/-- The call of the copy step (lines 255 to 268): `cp`, or `gpg --decrypt` when
`isToBeDecrypted && !retryWithoutDecryption`, with the caller's reader as
standard input. -/
def copyCall (ns podName containerName pathToCopy : Str) (isToBeDecrypted : Bool)
    (passphrase : Str) (retryWithoutDecryption : Bool) : Call :=
  ⟨ns, podName, containerName,
    if isToBeDecrypted = true ∧ retryWithoutDecryption = false
    then gpgCommand passphrase pathToCopy else cpCommand pathToCopy, true, false⟩

/-- The third step of a round of `UploadToK8s` (lines 255 to 296): the copy
step and what follows it.  `attempt` is the counter after `attempt++`, `tr` the
transport state after `touch`, `ev` the events of the round so far. -/
def uploadCopy (E : Transport σ) (ns podName containerName pathToCopy : Str)
    (isToBeDecrypted : Bool) (passphrase : Str) (attempt : Nat)
    (retryWithoutDecryption : Bool) (tr : σ) (ev : List Event) :
    Ctl (UploadState σ) (Option Str) × List Event :=
  let c := copyCall ns podName containerName pathToCopy isToBeDecrypted passphrase
    retryWithoutDecryption
  let r := (E tr c).1
  if r.stderr.length ≠ 0 ∧ isToBeDecrypted = false then
    retryOrReturn attempt (some (stderrError r.stderr))
      ⟨attempt, retryWithoutDecryption, (E tr c).2⟩ (ev ++ [Event.exec c r])
  else if r.stderr.length ≠ 0 ∧ isToBeDecrypted = true ∧
      retryWithoutDecryption = false ∧ strings.Contains r.stderr noOpenPGP = true then
    -- Don't count this attempt; all re-attempts are made without decryption
    (Ctl.next ⟨attempt - 1, true, (E tr c).2⟩,
      ev ++ [Event.exec c r, Event.log retryMsg])
  else if r.err ≠ none then
    retryOrReturn attempt r.err
      ⟨attempt, retryWithoutDecryption, (E tr c).2⟩ (ev ++ [Event.exec c r])
  else (Ctl.done none, ev ++ [Event.exec c r])

/-- The second step of a round of `UploadToK8s` (lines 237 to 253): `touch`,
then the copy step. -/
def uploadTouch (E : Transport σ) (ns podName containerName pathToCopy : Str)
    (isToBeDecrypted : Bool) (passphrase : Str) (attempt : Nat)
    (retryWithoutDecryption : Bool) (tr : σ) (ev : List Event) :
    Ctl (UploadState σ) (Option Str) × List Event :=
  let c := touchCall ns podName containerName pathToCopy
  let r := (E tr c).1
  if r.stderr.length ≠ 0 then
    retryOrReturn attempt (some (stderrError r.stderr))
      ⟨attempt, retryWithoutDecryption, (E tr c).2⟩ (ev ++ [Event.exec c r])
  else if r.err ≠ none then
    retryOrReturn attempt r.err
      ⟨attempt, retryWithoutDecryption, (E tr c).2⟩ (ev ++ [Event.exec c r])
  else
    uploadCopy E ns podName containerName pathToCopy isToBeDecrypted passphrase attempt
      retryWithoutDecryption (E tr c).2 (ev ++ [Event.exec c r])

/-- One round of the retry loop of `UploadToK8s` (lines 216 to 296): `attempt++`,
`mkdir -p`, then `touch` and the copy step. -/
def uploadBody (E : Transport σ) (ns podName containerName pathToCopy : Str)
    (isToBeDecrypted : Bool) (passphrase : Str) (s : UploadState σ) :
    Ctl (UploadState σ) (Option Str) × List Event :=
  let attempt := s.attempt + 1
  let c := mkdirCall ns podName containerName pathToCopy
  let r := (E s.tr c).1
  if r.stderr.length ≠ 0 then
    retryOrReturn attempt (some (stderrError r.stderr))
      ⟨attempt, s.retryWithoutDecryption, (E s.tr c).2⟩ [Event.exec c r]
  else if r.err ≠ none then
    retryOrReturn attempt r.err
      ⟨attempt, s.retryWithoutDecryption, (E s.tr c).2⟩ [Event.exec c r]
  else
    uploadTouch E ns podName containerName pathToCopy isToBeDecrypted passphrase attempt
      s.retryWithoutDecryption (E s.tr c).2 [Event.exec c r]

/-- The retry loop of `UploadToK8s` (lines 215 to 298):
`for attempt < attempts { ... }; return nil`. -/
def uploadLoop (E : Transport σ) (ns podName containerName pathToCopy : Str)
    (isToBeDecrypted : Bool) (passphrase : Str) (fuel : Nat) (s : UploadState σ) :
    Option (Option Str × List Event) :=
  runLoop (fun s => decide (s.attempt < attempts))
    (uploadBody E ns podName containerName pathToCopy isToBeDecrypted passphrase) none fuel s

/-- The segments of the target of `UploadToK8s`: a target of exactly three
segments gets the file name of `fromPath` appended. -/
def uploadSplit (toPath fromPath : Str) : List Str :=
  if (strings.Split '/' toPath).length = 3 then
    strings.Split '/' toPath ++ [(filepath.Split fromPath).2]
  else strings.Split '/' toPath

/-- The function `UploadToK8s`; `probe` is `isK8sCryptoEnabled`. -/
def UploadToK8s (E : Transport σ) (probe : Str → Bool × Str) (fuel : Nat) (tr : σ)
    (toPath fromPath : Str) : Option (Option Str × List Event) :=
  match validateK8sPath (strings.Split '/' toPath) with
  | some err => some (some err, [])
  | none =>
    let v := initK8sVariables (uploadSplit toPath fromPath)
    match uploadLoop E v.1 v.2.1 v.2.2.1 v.2.2.2 (probe v.1).1 (probe v.1).2
        fuel ⟨0, false, tr⟩ with
    | none => none
    | some (r, ev) => some (r, Event.probe v.1 :: ev)

/-- The loop states at the start of the rounds that a call of `UploadToK8s`
runs. -/
def uploadRounds (E : Transport σ) (probe : Str → Bool × Str) (fuel : Nat) (tr : σ)
    (toPath fromPath : Str) : List (UploadState σ) :=
  match validateK8sPath (strings.Split '/' toPath) with
  | some _ => []
  | none =>
    let v := initK8sVariables (uploadSplit toPath fromPath)
    loopStates (fun s => decide (s.attempt < attempts))
      (uploadBody E v.1 v.2.1 v.2.2.1 v.2.2.2 (probe v.1).1 (probe v.1).2)
      fuel ⟨0, false, tr⟩

end Operations

/-! ## Observations on event sequences, shapes of rounds and example inputs -/

section Observations

variable {σ : Type}

/-- The scripted transport: the `n`-th call is answered by the `n`-th response
of the script, and by an empty success once the script is used up. -/
def scripted (rs : List Resp) : Transport Nat :=
  fun n _ => (rs.getD n ⟨[], none, []⟩, n + 1)

/-- An exec call. -/
def isExec : Event → Bool
  | Event.exec _ _ => true
  | _ => false

/-- A copy step: the exec call bound to the caller's stream. -/
def isCopy : Event → Bool
  | Event.exec c _ => c.stdin
  | _ => false

/-- A backoff sleep. -/
def isSleep : Event → Bool
  | Event.sleep _ => true
  | _ => false

/-- The line logged by the downgrade branch. -/
def isDowngrade : Event → Bool
  | Event.log _ => true
  | _ => false

/-- How a round of the upload loop ends after its last exec call, which
returned `r`; `copy` tells whether that call was the copy step.  The round
sleeps and continues, returns an error, downgrades, or returns success. -/
inductive RoundEnd (isToBeDecrypted : Bool) (attempt : Nat) (retryWithoutDecryption : Bool)
    (copy : Bool) (r : Resp) : Ctl (UploadState σ) (Option Str) → List Event → Prop
  | sleep (t : σ) : attempt ≠ attempts → (r.stderr ≠ [] ∨ r.err ≠ none) →
      RoundEnd isToBeDecrypted attempt retryWithoutDecryption copy r
        (Ctl.next ⟨attempt, retryWithoutDecryption, t⟩) [Event.sleep attempt]
  | fail (e : Str) : attempt = attempts →
      (r.stderr ≠ [] ∧ (copy = true → isToBeDecrypted = false) ∧ e = stderrError r.stderr ∨
        r.err = some e ∧ (r.stderr = [] ∨ copy = true ∧ isToBeDecrypted = true)) →
      RoundEnd isToBeDecrypted attempt retryWithoutDecryption copy r (Ctl.done (some e)) []
  | downgrade (t : σ) : copy = true → isToBeDecrypted = true →
      retryWithoutDecryption = false →
      RoundEnd isToBeDecrypted attempt retryWithoutDecryption copy r
        (Ctl.next ⟨attempt - 1, true, t⟩) [Event.log retryMsg]
  | success : copy = true → r.err = none → (isToBeDecrypted = false → r.stderr = []) →
      (isToBeDecrypted = true → retryWithoutDecryption = false →
        r.stderr = [] ∨ strings.Contains r.stderr noOpenPGP = false) →
      RoundEnd isToBeDecrypted attempt retryWithoutDecryption copy r (Ctl.done none) []

/-- The shape of one round of the upload loop from the loop state `s`: `mkdir`
fails; or `mkdir` succeeds and `touch` fails; or both succeed and the copy step
runs. -/
inductive Round (ns podName containerName pathToCopy : Str) (isToBeDecrypted : Bool)
    (passphrase : Str) (s : UploadState σ) :
    Ctl (UploadState σ) (Option Str) → List Event → Prop
  | mkdir (r1 : Resp) (ctl : Ctl (UploadState σ) (Option Str)) (tl : List Event) :
      RoundEnd isToBeDecrypted (s.attempt + 1) s.retryWithoutDecryption false r1 ctl tl →
      Round ns podName containerName pathToCopy isToBeDecrypted passphrase s ctl
        (Event.exec (mkdirCall ns podName containerName pathToCopy) r1 :: tl)
  | touch (r1 r2 : Resp) (ctl : Ctl (UploadState σ) (Option Str)) (tl : List Event) :
      r1.stderr = [] → r1.err = none →
      RoundEnd isToBeDecrypted (s.attempt + 1) s.retryWithoutDecryption false r2 ctl tl →
      Round ns podName containerName pathToCopy isToBeDecrypted passphrase s ctl
        (Event.exec (mkdirCall ns podName containerName pathToCopy) r1 ::
          Event.exec (touchCall ns podName containerName pathToCopy) r2 :: tl)
  | copy (r1 r2 r3 : Resp) (ctl : Ctl (UploadState σ) (Option Str)) (tl : List Event) :
      r1.stderr = [] → r1.err = none → r2.stderr = [] → r2.err = none →
      RoundEnd isToBeDecrypted (s.attempt + 1) s.retryWithoutDecryption true r3 ctl tl →
      Round ns podName containerName pathToCopy isToBeDecrypted passphrase s ctl
        (Event.exec (mkdirCall ns podName containerName pathToCopy) r1 ::
          Event.exec (touchCall ns podName containerName pathToCopy) r2 ::
          Event.exec (copyCall ns podName containerName pathToCopy isToBeDecrypted passphrase
            s.retryWithoutDecryption) r3 :: tl)

/-- The number of rounds the upload loop can still run from a loop state: the
attempts left, and one more while the downgrade is still possible. -/
def uploadMeasure (isToBeDecrypted : Bool) (s : UploadState σ) : Nat :=
  (attempts - s.attempt) +
    (if isToBeDecrypted = true ∧ s.retryWithoutDecryption = false then 1 else 0)

/-- The response of a call that succeeds silently. -/
def okResp : Resp := ⟨[], none, []⟩

/-- A response with a transport error and empty standard error. -/
def errResp : Resp := ⟨[], some "error in Stream: EOF".toList, []⟩

/-- A probe that finds no secret: encryption is disabled. -/
def probeOff : Str → Bool × Str := fun _ => (false, [])

/-- A probe that finds the secret: encryption is enabled. -/
def probeOn : Str → Bool × Str := fun _ => (true, "pw".toList)

/-- A script on which a call of `UploadToK8s` with encryption enabled runs four
rounds: the first copy step reports the missing OpenPGP data, the next three
fail with a transport error. -/
def fourRounds : List Resp :=
  [okResp, okResp, ⟨noOpenPGP, none, []⟩, okResp, okResp, errResp,
    okResp, okResp, errResp, okResp, okResp, errResp]

/-- The target of the example calls: file `/tmp/a/b` of container `c` of pod
`pod` in namespace `ns`. -/
def demoPath : Str := "ns/pod/c/tmp/a/b".toList

/-- The `mkdir` step of the example calls, succeeding. -/
def demoMkdir : Event :=
  Event.exec (mkdirCall "ns".toList "pod".toList "c".toList "/tmp/a/b".toList) okResp

/-- The `touch` step of the example calls, succeeding. -/
def demoTouch : Event :=
  Event.exec (touchCall "ns".toList "pod".toList "c".toList "/tmp/a/b".toList) okResp

/-- The plain copy step of the example calls, answered by `r`. -/
def demoCp (r : Resp) : Event :=
  Event.exec ⟨"ns".toList, "pod".toList, "c".toList, cpCommand "/tmp/a/b".toList, true, false⟩ r

/-- The decrypting copy step of the example calls, answered by `r`. -/
def demoGpg (r : Resp) : Event :=
  Event.exec ⟨"ns".toList, "pod".toList, "c".toList,
    gpgCommand "pw".toList "/tmp/a/b".toList, true, false⟩ r

/-- The events of the call of `UploadToK8s` on the four-round script. -/
def fourRoundsTrace : List Event :=
  [Event.probe "ns".toList,
    demoMkdir, demoTouch, demoGpg ⟨noOpenPGP, none, []⟩, Event.log retryMsg,
    demoMkdir, demoTouch, demoCp errResp, Event.sleep 1,
    demoMkdir, demoTouch, demoCp errResp, Event.sleep 2,
    demoMkdir, demoTouch, demoCp errResp]

/-- What a successful write guarantees about its trace: it ends with a copy step
that reported no transport error; its standard error is empty when encryption is
disabled, and free of the OpenPGP token when it was the decrypting form. -/
def EndsWithGoodCopy (ns podName containerName pathToCopy : Str) (isToBeDecrypted : Bool)
    (passphrase : Str) (ev : List Event) : Prop :=
  ∃ pre flag resp,
    ev = pre ++ [Event.exec
      (copyCall ns podName containerName pathToCopy isToBeDecrypted passphrase flag) resp] ∧
    resp.err = none ∧ (isToBeDecrypted = false → resp.stderr = []) ∧
    (isToBeDecrypted = true → flag = false →
      resp.stderr = [] ∨ strings.Contains resp.stderr noOpenPGP = false)

/-- A warning of `gpg` on standard error that is not the OpenPGP token. -/
def gpgWarning : Resp := ⟨"gpg: WARNING: message was not integrity protected".toList, none, []⟩

/-- The events of a plain write that succeeds at once. -/
def plainWriteTrace : List Event :=
  [Event.probe "ns".toList, demoMkdir, demoTouch, demoCp okResp]

/-- In an event sequence, every copy step (an exec call whose argv is the `cp`
form or the `gpg --decrypt` form for `pathToCopy`) is immediately preceded by a
`touch` of `pathToCopy` that succeeded, itself immediately preceded by a
`mkdir -p` of the directory of `pathToCopy` that succeeded. -/
def CopyPreceded (ns podName containerName pathToCopy passphrase : Str)
    (ev : List Event) : Prop :=
  ∀ pre c r post, ev = pre ++ Event.exec c r :: post →
    (c.command = cpCommand pathToCopy ∨ c.command = gpgCommand passphrase pathToCopy) →
    ∃ pre' r1 r2,
      pre = pre' ++ [Event.exec (mkdirCall ns podName containerName pathToCopy) r1,
        Event.exec (touchCall ns podName containerName pathToCopy) r2] ∧
      r1.stderr = [] ∧ r1.err = none ∧ r2.stderr = [] ∧ r2.err = none

/-- Every exec call of an event sequence returned empty standard error and no
error. -/
def AllCallsSucceed (ev : List Event) : Prop :=
  ∀ c r, Event.exec c r ∈ ev → r.stderr = [] ∧ r.err = none

/-- The pairs of neighbours of a list. -/
def adjacent {α : Type} : List α → List (α × α)
  | a :: b :: rest => (a, b) :: adjacent (b :: rest)
  | _ => []

/-- Once a copy step has been issued in the plain `cp` form, every later copy
step is the plain `cp` form: however the events are cut into an earlier and a
later part, a `cp` call in the earlier part forces every copy step of the later
part to be a `cp` call. -/
def PlainStays (pathToCopy : Str) (ev : List Event) : Prop :=
  ∀ a b, ev = a ++ b →
    (∃ c1 r1, Event.exec c1 r1 ∈ a ∧ c1.command = cpCommand pathToCopy) →
    ∀ c2 r2, Event.exec c2 r2 ∈ b → c2.stdin = true → c2.command = cpCommand pathToCopy

/-- Every copy step of an event sequence is the plain `cp` form. -/
def AllPlain (pathToCopy : Str) (ev : List Event) : Prop :=
  ∀ c r, Event.exec c r ∈ ev → c.stdin = true → c.command = cpCommand pathToCopy

/-- A response with a non-empty standard error and no transport error. -/
def busyResp : Resp := ⟨"busy".toList, none, []⟩

/-- The output of `find` in the listing example. -/
def findOutput : Resp := ⟨[], none, "/var/log/a.log\n/var/log/sub/b.log\n".toList⟩

/-- No two neighbouring bytes are both separators. -/
def NoDoubleSlash (l : Str) : Prop := l.Chain' (fun a b => ¬ (a = '/' ∧ b = '/'))

/-- The invariant of the buffer of `filepath.Clean` on a rooted path, the
buffer being kept in reverse: it starts with the separator, holds no doubled
separator, and ends with a separator only when it is the root alone. -/
def RootedBuf (out : Str) : Prop :=
  out.getLast? = some '/' ∧ NoDoubleSlash out ∧ (out.length ≠ 1 → out.head? ≠ some '/')

/-- A path element that `filepath.Clean` keeps as it is: not empty, not `.`, not
`..`, and free of separators. -/
def PlainSegment (x : Str) : Prop :=
  x ≠ [] ∧ x ≠ ['.'] ∧ x ≠ ['.', '.'] ∧ '/' ∉ x

/-- A response with standard error `boom` and a transport error. -/
def boomResp : Resp := ⟨"boom".toList, some "error in Stream: exit 1".toList, []⟩

/-- A response with standard error `100%` and no transport error. -/
def percentResp : Resp := ⟨"100%".toList, none, []⟩

end Observations

/-! # Theorems

## Generic facts on retry loops -/

section Loops

variable {S R : Type} (cond : S → Bool) (body : S → Ctl S R × List Event) (exit : R)

theorem runLoop_induct (P : S → R → List Event → Prop)
    (hexit : ∀ s, cond s = false → P s exit [])
    (hdone : ∀ s r ev, cond s = true → body s = (Ctl.done r, ev) → P s r ev)
    (hnext : ∀ s s' ev r ev', cond s = true → body s = (Ctl.next s', ev) →
      P s' r ev' → P s r (ev ++ ev')) :
    ∀ fuel s r ev, runLoop cond body exit fuel s = some (r, ev) → P s r ev := by
  intro fuel
  induction fuel with
  | zero => intro s r ev h; simp [runLoop] at h
  | succ n ih =>
    intro s r ev h
    rw [runLoop] at h
    by_cases hc : cond s = true
    · rw [if_pos hc] at h
      rcases hb : body s with ⟨ctl, ev0⟩
      rw [hb] at h
      cases ctl with
      | next s' =>
        simp only at h
        rcases hr : runLoop cond body exit n s' with _ | ⟨r', ev'⟩
        · rw [hr] at h; simp at h
        · rw [hr] at h
          simp only [Option.some.injEq, Prod.mk.injEq] at h
          obtain ⟨rfl, rfl⟩ := h
          exact hnext s s' ev0 r' ev' hc hb (ih s' r' ev' hr)
      | done r0 =>
        simp only [Option.some.injEq, Prod.mk.injEq] at h
        obtain ⟨rfl, rfl⟩ := h
        exact hdone s r0 ev0 hc hb
    · rw [if_neg hc] at h
      simp only [Option.some.injEq, Prod.mk.injEq] at h
      obtain ⟨rfl, rfl⟩ := h
      exact hexit s (by simpa using hc)

theorem runLoop_succ (fuel : Nat) (s : S) (x : R × List Event)
    (h : runLoop cond body exit fuel s = some x) :
    runLoop cond body exit (fuel + 1) s = some x := by
  induction fuel generalizing s x with
  | zero => simp [runLoop] at h
  | succ n ih =>
    rw [runLoop] at h
    rw [runLoop]
    by_cases hc : cond s = true
    · rw [if_pos hc] at h
      rw [if_pos hc]
      rcases hb : body s with ⟨ctl, ev0⟩
      rw [hb] at h
      cases ctl with
      | next s' =>
        simp only at h ⊢
        rcases hr : runLoop cond body exit n s' with _ | ⟨r', ev'⟩
        · rw [hr] at h; simp at h
        · rw [hr] at h
          rw [ih s' (r', ev') hr]
          exact h
      | done r0 => exact h
    · rw [if_neg hc] at h
      rw [if_neg hc]
      exact h

theorem runLoop_mono {fuel fuel' : Nat} (hle : fuel ≤ fuel') (s : S) (x : R × List Event)
    (h : runLoop cond body exit fuel s = some x) :
    runLoop cond body exit fuel' s = some x := by
  induction hle with
  | refl => exact h
  | step _ ih => exact runLoop_succ cond body exit _ s x ih

theorem runLoop_terminates (μ : S → Nat)
    (hpos : ∀ s, cond s = true → 0 < μ s)
    (hdec : ∀ s s' ev, cond s = true → body s = (Ctl.next s', ev) →
      cond s' = true ∧ μ s' < μ s) :
    ∀ fuel s, cond s = true → μ s ≤ fuel → ∃ x, runLoop cond body exit fuel s = some x := by
  intro fuel
  induction fuel with
  | zero =>
    intro s hc hle
    have := hpos s hc
    omega
  | succ n ih =>
    intro s hc hle
    rw [runLoop, if_pos hc]
    rcases hb : body s with ⟨ctl, ev0⟩
    cases ctl with
    | next s' =>
      obtain ⟨hc', hlt⟩ := hdec s s' ev0 hc hb
      obtain ⟨x, hx⟩ := ih s' hc' (by omega)
      simp only [hx]
      exact ⟨_, rfl⟩
    | done r0 => exact ⟨_, rfl⟩

theorem loopStates_length (μ : S → Nat)
    (hpos : ∀ s, cond s = true → 0 < μ s)
    (hdec : ∀ s s' ev, cond s = true → body s = (Ctl.next s', ev) → μ s' < μ s) :
    ∀ fuel s, (loopStates cond body fuel s).length ≤ μ s := by
  intro fuel
  induction fuel with
  | zero => intro s; simp [loopStates]
  | succ n ih =>
    intro s
    rw [loopStates]
    by_cases hc : cond s = true
    · rw [if_pos hc]
      rcases hb : body s with ⟨ctl, ev0⟩
      cases ctl with
      | next s' =>
        have := hdec s s' ev0 hc hb
        have := ih s'
        simp only [List.length_cons]
        omega
      | done r0 =>
        have := hpos s hc
        simp only [List.length_cons, List.length_nil]
        omega
    · rw [if_neg hc]; simp

end Loops

/-! ## Rounds of the upload loop -/

section Upload

variable {σ : Type}

variable (E : Transport σ) (ns podName containerName pathToCopy : Str)
  (isToBeDecrypted : Bool) (passphrase : Str)

theorem retryOrReturn_end (attempt : Nat) (rw copy : Bool) (r : Resp) (e : Str) (t : σ)
    (ev0 : List Event)
    (he : r.stderr ≠ [] ∧ (copy = true → isToBeDecrypted = false) ∧ e = stderrError r.stderr ∨
      r.err = some e ∧ (r.stderr = [] ∨ copy = true ∧ isToBeDecrypted = true))
    (ctl : Ctl (UploadState σ) (Option Str)) (ev : List Event)
    (h : retryOrReturn attempt (some e) (⟨attempt, rw, t⟩ : UploadState σ) ev0 = (ctl, ev)) :
    ∃ tl, ev = ev0 ++ tl ∧ RoundEnd isToBeDecrypted attempt rw copy r ctl tl := by
  unfold retryOrReturn at h
  split at h
  · next ha =>
    simp only [Prod.mk.injEq] at h
    obtain ⟨rfl, rfl⟩ := h
    exact ⟨[], by simp, RoundEnd.fail e ha he⟩
  · next ha =>
    simp only [Prod.mk.injEq] at h
    obtain ⟨rfl, rfl⟩ := h
    refine ⟨_, rfl, RoundEnd.sleep t ha ?_⟩
    rcases he with ⟨h1, -, -⟩ | ⟨h1, -⟩
    · exact Or.inl h1
    · exact Or.inr (by simp [h1])

theorem uploadCopy_shape (attempt : Nat) (rw : Bool) (tr : σ) (ev0 : List Event)
    (ctl : Ctl (UploadState σ) (Option Str)) (ev : List Event)
    (h : uploadCopy E ns podName containerName pathToCopy isToBeDecrypted passphrase attempt
      rw tr ev0 = (ctl, ev)) :
    ∃ r tl, ev = ev0 ++ Event.exec
        (copyCall ns podName containerName pathToCopy isToBeDecrypted passphrase rw) r :: tl ∧
      RoundEnd isToBeDecrypted attempt rw true r ctl tl := by
  unfold uploadCopy at h
  simp only at h
  refine ⟨(E tr (copyCall ns podName containerName pathToCopy isToBeDecrypted passphrase rw)).1,
    ?_⟩
  split at h
  · next h1 =>
    obtain ⟨tl, rfl, hend⟩ := retryOrReturn_end isToBeDecrypted attempt rw true _ _ _ _
      (Or.inl ⟨by simpa using h1.1, fun _ => h1.2, rfl⟩) ctl ev h
    exact ⟨tl, by simp, hend⟩
  · next h1 =>
    split at h
    · next h2 =>
      simp only [Prod.mk.injEq] at h
      obtain ⟨rfl, rfl⟩ := h
      exact ⟨_, by simp, RoundEnd.downgrade _ rfl h2.2.1 h2.2.2.1⟩
    · next h2 =>
      split at h
      · next h3 =>
        obtain ⟨e, he⟩ := Option.ne_none_iff_exists'.mp h3
        rw [he] at h
        have hwhy : (E tr (copyCall ns podName containerName pathToCopy isToBeDecrypted
            passphrase rw)).1.stderr = [] ∨ true = true ∧ isToBeDecrypted = true := by
          by_cases hs : (E tr (copyCall ns podName containerName pathToCopy isToBeDecrypted
              passphrase rw)).1.stderr = []
          · exact Or.inl hs
          · right
            refine ⟨rfl, ?_⟩
            by_contra hd
            exact h1 ⟨by simpa using hs, by simpa using hd⟩
        obtain ⟨tl, rfl, hend⟩ := retryOrReturn_end isToBeDecrypted attempt rw true _ _ _ _
          (Or.inr ⟨he, hwhy⟩) ctl ev h
        exact ⟨tl, by simp, hend⟩
      · next h3 =>
        simp only [Prod.mk.injEq] at h
        obtain ⟨rfl, rfl⟩ := h
        refine ⟨[], by simp, RoundEnd.success rfl (by simpa using h3) ?_ ?_⟩
        · intro hd
          by_contra hne
          exact h1 ⟨by simpa using hne, hd⟩
        · intro hd hr
          by_contra hcon
          simp only [not_or, Bool.not_eq_false] at hcon
          exact h2 ⟨by simpa using hcon.1, hd, hr, hcon.2⟩

theorem uploadBody_round (s : UploadState σ) (ctl : Ctl (UploadState σ) (Option Str))
    (ev : List Event)
    (h : uploadBody E ns podName containerName pathToCopy isToBeDecrypted passphrase s
      = (ctl, ev)) :
    Round ns podName containerName pathToCopy isToBeDecrypted passphrase s ctl ev := by
  unfold uploadBody at h
  simp only at h
  split at h
  · next h1 =>
    obtain ⟨tl, rfl, hend⟩ := retryOrReturn_end isToBeDecrypted _ _ false _ _ _ _
      (Or.inl ⟨by simpa using h1, by simp, rfl⟩) ctl ev h
    exact Round.mkdir _ ctl tl hend
  · next h1 =>
    split at h
    · next h2 =>
      obtain ⟨e, he⟩ := Option.ne_none_iff_exists'.mp h2
      rw [he] at h
      obtain ⟨tl, rfl, hend⟩ := retryOrReturn_end isToBeDecrypted _ _ false _ _ _ _
        (Or.inr ⟨he, Or.inl (by simpa using h1)⟩) ctl ev h
      exact Round.mkdir _ ctl tl hend
    · next h2 =>
      have ok1 : (E s.tr (mkdirCall ns podName containerName pathToCopy)).1.stderr = [] := by
        simpa using h1
      have ok1' : (E s.tr (mkdirCall ns podName containerName pathToCopy)).1.err = none := by
        simpa using h2
      unfold uploadTouch at h
      simp only at h
      split at h
      · next h3 =>
        obtain ⟨tl, rfl, hend⟩ := retryOrReturn_end isToBeDecrypted _ _ false _ _ _ _
          (Or.inl ⟨by simpa using h3, by simp, rfl⟩) ctl ev h
        exact Round.touch _ _ ctl tl ok1 ok1' hend
      · next h3 =>
        split at h
        · next h4 =>
          obtain ⟨e, he⟩ := Option.ne_none_iff_exists'.mp h4
          rw [he] at h
          obtain ⟨tl, rfl, hend⟩ := retryOrReturn_end isToBeDecrypted _ _ false _ _ _ _
            (Or.inr ⟨he, Or.inl (by simpa using h3)⟩) ctl ev h
          exact Round.touch _ _ ctl tl ok1 ok1' hend
        · next h4 =>
          obtain ⟨r3, tl, rfl, hend⟩ := uploadCopy_shape E ns podName containerName pathToCopy
            isToBeDecrypted passphrase _ _ _ _ ctl ev h
          exact Round.copy _ _ r3 ctl tl ok1 ok1' (by simpa using h3) (by simpa using h4) hend

end Upload

/-! ## Counting the events of the upload loop -/

section UploadCounts

variable {σ : Type} {ns podName containerName pathToCopy : Str}
  {isToBeDecrypted : Bool} {passphrase : Str}

theorem attempts_eq : attempts = 3 := rfl

theorem Round.counts {s : UploadState σ} {ctl : Ctl (UploadState σ) (Option Str)}
    {ev : List Event}
    (h : Round ns podName containerName pathToCopy isToBeDecrypted passphrase s ctl ev) :
    ev.countP isExec ≤ 3 ∧ ev.countP isCopy ≤ 1 := by
  cases h with
  | mkdir r1 ctl tl hend =>
    cases hend <;> simp [List.countP_cons, isExec, isCopy, mkdirCall]
  | touch r1 r2 ctl tl h1 h2 hend =>
    cases hend <;> simp [List.countP_cons, isExec, isCopy, mkdirCall, touchCall]
  | copy r1 r2 r3 ctl tl h1 h2 h3 h4 hend =>
    cases hend <;> simp [List.countP_cons, isExec, isCopy, mkdirCall, touchCall, copyCall]

theorem Round.next {s s' : UploadState σ} {ev : List Event}
    (h : Round ns podName containerName pathToCopy isToBeDecrypted passphrase s
      (Ctl.next s') ev) :
    (s'.attempt = s.attempt + 1 ∧ s'.retryWithoutDecryption = s.retryWithoutDecryption ∧
        s.attempt + 1 ≠ attempts ∧ ev.countP isSleep = 1 ∧ ev.countP isDowngrade = 0) ∨
      (s'.attempt = s.attempt ∧ isToBeDecrypted = true ∧ s.retryWithoutDecryption = false ∧
        s'.retryWithoutDecryption = true ∧ ev.countP isSleep = 0 ∧
        ev.countP isDowngrade = 1 ∧ ev.countP isCopy = 1) := by
  cases h with
  | mkdir r1 ctl tl hend =>
    cases hend <;> simp_all [List.countP_cons, isSleep, isDowngrade, isCopy, mkdirCall]
  | touch r1 r2 ctl tl h1 h2 hend =>
    cases hend <;>
      simp_all [List.countP_cons, isSleep, isDowngrade, isCopy, mkdirCall, touchCall]
  | copy r1 r2 r3 ctl tl h1 h2 h3 h4 hend =>
    cases hend <;>
      simp_all [List.countP_cons, isSleep, isDowngrade, isCopy, mkdirCall, touchCall, copyCall]

theorem Round.done {s : UploadState σ} {r : Option Str} {ev : List Event}
    (h : Round ns podName containerName pathToCopy isToBeDecrypted passphrase s
      (Ctl.done r) ev) :
    ev.countP isSleep = 0 ∧ ev.countP isDowngrade = 0 := by
  cases h with
  | mkdir r1 ctl tl hend =>
    cases hend <;> simp [List.countP_cons, isSleep, isDowngrade]
  | touch r1 r2 ctl tl h1 h2 hend =>
    cases hend <;> simp [List.countP_cons, isSleep, isDowngrade]
  | copy r1 r2 r3 ctl tl h1 h2 h3 h4 hend =>
    cases hend <;> simp [List.countP_cons, isSleep, isDowngrade]

end UploadCounts

/-! ## The upload loop as a whole -/

section UploadLoop

variable {σ : Type} (E : Transport σ) (ns podName containerName pathToCopy : Str)
  (isToBeDecrypted : Bool) (passphrase : Str)

theorem uploadMeasure_pos (s : UploadState σ) (hc : decide (s.attempt < attempts) = true) :
    0 < uploadMeasure isToBeDecrypted s := by
  simp only [decide_eq_true_eq] at hc
  unfold uploadMeasure
  omega

theorem uploadBody_decreases (s s' : UploadState σ) (ev : List Event)
    (hc : decide (s.attempt < attempts) = true)
    (hb : uploadBody E ns podName containerName pathToCopy isToBeDecrypted passphrase s
      = (Ctl.next s', ev)) :
    decide (s'.attempt < attempts) = true ∧
      uploadMeasure isToBeDecrypted s' < uploadMeasure isToBeDecrypted s := by
  simp only [decide_eq_true_eq] at hc ⊢
  unfold uploadMeasure
  rcases (uploadBody_round E ns podName containerName pathToCopy isToBeDecrypted passphrase
    s _ ev hb).next with ⟨h1, h2, h3, -, -⟩ | ⟨h1, h2, h3, h4, -, -, -⟩
  · rw [h1, h2]
    constructor
    · omega
    · omega
  · rw [h1, h3, h4, h2]
    simp
    omega

theorem uploadLoop_returns (fuel : Nat) (s : UploadState σ) (hc : s.attempt < attempts)
    (hfuel : uploadMeasure isToBeDecrypted s ≤ fuel) :
    ∃ x, uploadLoop E ns podName containerName pathToCopy isToBeDecrypted passphrase fuel s
      = some x :=
  runLoop_terminates _ _ none (uploadMeasure isToBeDecrypted)
    (uploadMeasure_pos isToBeDecrypted)
    (uploadBody_decreases E ns podName containerName pathToCopy isToBeDecrypted passphrase)
    fuel s (by simpa using hc) hfuel

theorem uploadLoop_counts (fuel : Nat) (s : UploadState σ) (r : Option Str)
    (ev : List Event)
    (h : uploadLoop E ns podName containerName pathToCopy isToBeDecrypted passphrase fuel s
      = some (r, ev)) :
    ev.countP isExec ≤ 3 * uploadMeasure isToBeDecrypted s ∧
      ev.countP isSleep + s.attempt ≤ max attempts s.attempt ∧
      (s.attempt ≤ attempts → ev.countP isCopy + s.attempt ≤ attempts + ev.countP isDowngrade) ∧
      ev.countP isDowngrade ≤
        (if isToBeDecrypted = true ∧ s.retryWithoutDecryption = false then 1 else 0) := by
  refine runLoop_induct _ _ none
    (fun s _ ev => ev.countP isExec ≤ 3 * uploadMeasure isToBeDecrypted s ∧
      ev.countP isSleep + s.attempt ≤ max attempts s.attempt ∧
      (s.attempt ≤ attempts → ev.countP isCopy + s.attempt ≤ attempts + ev.countP isDowngrade) ∧
      ev.countP isDowngrade ≤
        (if isToBeDecrypted = true ∧ s.retryWithoutDecryption = false then 1 else 0))
    ?_ ?_ ?_ fuel s r ev h
  · intro s _
    simp
  · intro s r ev hc hb
    have hr := uploadBody_round E ns podName containerName pathToCopy isToBeDecrypted
      passphrase s _ ev hb
    have hpos := uploadMeasure_pos isToBeDecrypted s hc
    simp only [decide_eq_true_eq] at hc
    obtain ⟨h1, h2⟩ := hr.counts
    obtain ⟨h3, h4⟩ := hr.done
    refine ⟨by omega, by omega, fun _ => by omega, by omega⟩
  · intro s s' ev r ev' hc hb ih
    have hr := uploadBody_round E ns podName containerName pathToCopy isToBeDecrypted
      passphrase s _ ev hb
    have hdec := uploadBody_decreases E ns podName containerName pathToCopy isToBeDecrypted
      passphrase s s' ev hc hb
    simp only [decide_eq_true_eq] at hc hdec
    obtain ⟨h1, h2⟩ := hr.counts
    obtain ⟨ih1, ih2, ih3, ih4⟩ := ih
    simp only [List.countP_append]
    rcases hr.next with ⟨e1, e2, e3, e4, e5⟩ | ⟨e1, e2, e3, e4, e5, e6, e7⟩
    · rw [e2] at ih4
      refine ⟨by omega, by omega, fun _ => by omega, by omega⟩
    · subst e2
      rw [e4] at ih4
      simp only [e3, and_self, if_true]
      simp only [Bool.true_eq_false, and_false, if_false] at ih4
      refine ⟨by omega, by omega, fun _ => by omega, by omega⟩

end UploadLoop

/-! ## Termination of a write and the number of its copy steps -/

theorem fourRounds_run :
    UploadToK8s (scripted fourRounds) probeOn 4 0 demoPath "x".toList
      = some (errResp.err, fourRoundsTrace) := by
  decide

section UploadTop

variable {σ : Type} (E : Transport σ) (probe : Str → Bool × Str)

theorem uploadRounds_length (ns podName containerName pathToCopy : Str)
    (isToBeDecrypted : Bool) (passphrase : Str) (fuel : Nat) (s : UploadState σ) :
    (loopStates (fun s => decide (s.attempt < attempts))
      (uploadBody E ns podName containerName pathToCopy isToBeDecrypted passphrase)
      fuel s).length ≤ uploadMeasure isToBeDecrypted s :=
  loopStates_length _ _ (uploadMeasure isToBeDecrypted) (uploadMeasure_pos isToBeDecrypted)
    (fun s s' ev hc hb => (uploadBody_decreases E ns podName containerName pathToCopy
      isToBeDecrypted passphrase s s' ev hc hb).2) fuel s

theorem uploadMeasure_init (isToBeDecrypted : Bool) (tr : σ) :
    uploadMeasure isToBeDecrypted (⟨0, false, tr⟩ : UploadState σ) ≤ 4 := by
  unfold uploadMeasure attempts
  split <;> simp

theorem UploadToK8s_stable (tr : σ) (toPath fromPath : Str) (fuel : Nat)
    (x : Option Str × List Event)
    (h : UploadToK8s E probe fuel tr toPath fromPath = some x) (n : Nat) (hn : 4 ≤ n) :
    UploadToK8s E probe n tr toPath fromPath = some x := by
  unfold UploadToK8s at h ⊢
  cases hv : validateK8sPath (strings.Split '/' toPath) with
  | some err =>
    rw [hv] at h
    exact h
  | none =>
    rw [hv] at h
    simp only at h ⊢
    obtain ⟨y, hy⟩ := uploadLoop_returns E
      (initK8sVariables (uploadSplit toPath fromPath)).1
      (initK8sVariables (uploadSplit toPath fromPath)).2.1
      (initK8sVariables (uploadSplit toPath fromPath)).2.2.1
      (initK8sVariables (uploadSplit toPath fromPath)).2.2.2
      (probe (initK8sVariables (uploadSplit toPath fromPath)).1).1
      (probe (initK8sVariables (uploadSplit toPath fromPath)).1).2
      4 ⟨0, false, tr⟩ (by simp [attempts]) (uploadMeasure_init _ tr)
    unfold uploadLoop at h hy ⊢
    have hn' := runLoop_mono _ _ none hn _ _ hy
    have hmax := runLoop_mono _ _ none (Nat.le_max_right fuel 4) _ _ hy
    split at h
    · simp at h
    · next r0 ev0 hx =>
      have hmax' := runLoop_mono _ _ none (Nat.le_max_left fuel 4) _ _ hx
      rw [hmax] at hmax'
      simp only [Option.some.injEq] at hmax'
      subst hmax'
      rw [hn']
      exact h

/-- C10: the retry loop of `UploadToK8s` always terminates.  For every transport,
probe, transport state and pair of paths, four rounds of the loop are enough for
the call to return, more rounds change nothing, and the call makes at most 12
exec calls and at most 3 backoff sleeps; the loop body runs at most 4 times. -/
theorem UploadToK8s_terminates (tr : σ) (toPath fromPath : Str) (fuel : Nat)
    (hfuel : 4 ≤ fuel) :
    (∃ r ev, UploadToK8s E probe fuel tr toPath fromPath = some (r, ev) ∧
        UploadToK8s E probe 4 tr toPath fromPath = some (r, ev) ∧
        ev.countP isExec ≤ 12 ∧ ev.countP isSleep ≤ 3) ∧
      (uploadRounds E probe fuel tr toPath fromPath).length ≤ 4 := by
  unfold UploadToK8s uploadRounds
  cases validateK8sPath (strings.Split '/' toPath) with
  | some err => exact ⟨⟨_, _, rfl, rfl, by simp, by simp⟩, by simp⟩
  | none =>
    simp only
    constructor
    · obtain ⟨⟨r, ev⟩, hx⟩ := uploadLoop_returns E
        (initK8sVariables (uploadSplit toPath fromPath)).1
        (initK8sVariables (uploadSplit toPath fromPath)).2.1
        (initK8sVariables (uploadSplit toPath fromPath)).2.2.1
        (initK8sVariables (uploadSplit toPath fromPath)).2.2.2
        (probe (initK8sVariables (uploadSplit toPath fromPath)).1).1
        (probe (initK8sVariables (uploadSplit toPath fromPath)).1).2
        4 ⟨0, false, tr⟩ (by simp [attempts]) (uploadMeasure_init _ tr)
      have hx' := runLoop_mono _ _ none hfuel _ _ hx
      have hcount := uploadLoop_counts E _ _ _ _ _ _ 4 _ r ev hx
      have hm := uploadMeasure_init
        (probe (initK8sVariables (uploadSplit toPath fromPath)).1).1 tr
      unfold uploadLoop at hx ⊢
      rw [hx, hx']
      refine ⟨r, _, rfl, rfl, ?_, ?_⟩
      · simp only [List.countP_cons, isExec]
        have := hcount.1
        simp only [Bool.false_eq_true, if_false, add_zero]
        omega
      · simp only [List.countP_cons, isSleep]
        have := hcount.2.1
        simp only [attempts_eq] at this
        simp only [Bool.false_eq_true, if_false, add_zero]
        omega
    · exact le_trans (uploadRounds_length E _ _ _ _ _ _ fuel _) (uploadMeasure_init _ tr)

/-- Witness of C10 on the four-round script with encryption enabled. -/
theorem UploadToK8s_terminates_witness :
    4 ≤ 7 ∧
      (∃ r ev, UploadToK8s (scripted fourRounds) probeOn 7 0 demoPath "x".toList
            = some (r, ev) ∧
          UploadToK8s (scripted fourRounds) probeOn 4 0 demoPath "x".toList = some (r, ev) ∧
          ev.countP isExec ≤ 12 ∧ ev.countP isSleep ≤ 3) ∧
      (uploadRounds (scripted fourRounds) probeOn 7 0 demoPath "x".toList).length ≤ 4 :=
  ⟨by decide,
    UploadToK8s_terminates (scripted fourRounds) probeOn 0 demoPath "x".toList 7 (by decide)⟩

/-- C3, as stated, fails: with encryption enabled the copy step can run four
times in one call, the downgraded `gpg` attempt and three `cp` attempts. -/
theorem UploadToK8s_four_copy_steps :
    UploadToK8s (scripted fourRounds) probeOn 4 0 demoPath "x".toList
        = some (errResp.err, fourRoundsTrace) ∧
      fourRoundsTrace.countP isCopy = 4 := by
  decide

/-- C3, amended: in every call of `UploadToK8s` the copy step is executed at
most 3 times apart from the downgraded `gpg` attempt, which the loop does not
count and which happens at most once: at most 4 times in all, and at most 3
times when the encryption probe is disabled.  The call is the one that four or
more rounds of the loop produce. -/
theorem UploadToK8s_copy_steps (tr : σ) (toPath fromPath : Str) (fuel : Nat)
    (r : Option Str) (ev : List Event)
    (h : UploadToK8s E probe fuel tr toPath fromPath = some (r, ev)) :
    (∀ n, 4 ≤ n → UploadToK8s E probe n tr toPath fromPath = some (r, ev)) ∧
      ev.countP isCopy ≤ 3 + ev.countP isDowngrade ∧ ev.countP isDowngrade ≤ 1 ∧
      ev.countP isCopy ≤ 4 ∧
      ((probe (initK8sVariables (uploadSplit toPath fromPath)).1).1 = false →
        ev.countP isCopy ≤ 3) := by
  refine ⟨UploadToK8s_stable E probe tr toPath fromPath fuel (r, ev) h, ?_⟩
  unfold UploadToK8s at h
  cases hv : validateK8sPath (strings.Split '/' toPath) with
  | some err =>
    rw [hv] at h
    simp only [Option.some.injEq, Prod.mk.injEq] at h
    obtain ⟨-, rfl⟩ := h
    simp
  | none =>
    rw [hv] at h
    simp only at h
    split at h
    · simp at h
    · next r0 ev0 hx =>
      simp only [Option.some.injEq, Prod.mk.injEq] at h
      obtain ⟨-, rfl⟩ := h
      obtain ⟨-, -, h3, h4⟩ := uploadLoop_counts E _ _ _ _ _ _ fuel _ r0 ev0 hx
      simp only [attempts_eq] at h3
      have h3' := h3 (by simp)
      simp only [List.countP_cons, isCopy, isDowngrade, Bool.false_eq_true, if_false,
        add_zero]
      simp only [add_zero] at h3'
      refine ⟨h3', ?_, ?_, ?_⟩
      · split at h4 <;> omega
      · split at h4 <;> omega
      · intro hoff
        rw [hoff] at h4
        simp only [Bool.false_eq_true, false_and, if_false] at h4
        omega

/-- Witness of the amended C3 on the four-round script. -/
theorem UploadToK8s_copy_steps_witness :
    (∀ n, 4 ≤ n → UploadToK8s (scripted fourRounds) probeOn n 0 demoPath "x".toList
        = some (errResp.err, fourRoundsTrace)) ∧
      fourRoundsTrace.countP isCopy ≤ 3 + fourRoundsTrace.countP isDowngrade ∧
      fourRoundsTrace.countP isDowngrade ≤ 1 ∧ fourRoundsTrace.countP isCopy ≤ 4 ∧
      ((probeOn (initK8sVariables (uploadSplit demoPath "x".toList)).1).1 = false →
        fourRoundsTrace.countP isCopy ≤ 3) :=
  UploadToK8s_copy_steps (scripted fourRounds) probeOn 0 demoPath "x".toList 4
    errResp.err fourRoundsTrace fourRounds_run

end UploadTop

/-! ## Success of a write -/

section UploadSuccess

variable {σ : Type} (E : Transport σ) (probe : Str → Bool × Str)

theorem uploadLoop_success (ns podName containerName pathToCopy : Str)
    (isToBeDecrypted : Bool) (passphrase : Str) (fuel : Nat) (s : UploadState σ)
    (ev : List Event) (hs : s.attempt < attempts)
    (h : uploadLoop E ns podName containerName pathToCopy isToBeDecrypted passphrase fuel s
      = some (none, ev)) :
    EndsWithGoodCopy ns podName containerName pathToCopy isToBeDecrypted passphrase ev := by
  refine runLoop_induct _ _ none
    (fun s r ev => s.attempt < attempts → r = none →
      EndsWithGoodCopy ns podName containerName pathToCopy isToBeDecrypted passphrase ev)
    ?_ ?_ ?_ fuel s none ev h hs rfl
  · intro s hc hs
    simp at hc
    omega
  · intro s r ev _ hb _ hr
    subst hr
    have hround := uploadBody_round E ns podName containerName pathToCopy isToBeDecrypted
      passphrase s _ ev hb
    cases hround with
    | mkdir r1 ctl tl hend =>
      cases hend with
      | success hcopy => simp at hcopy
    | touch r1 r2 ctl tl h1 h2 hend =>
      cases hend with
      | success hcopy => simp at hcopy
    | copy r1 r2 r3 ctl tl h1 h2 h3 h4 hend =>
      cases hend with
      | success _ he hoff hon =>
        exact ⟨[Event.exec (mkdirCall ns podName containerName pathToCopy) r1,
          Event.exec (touchCall ns podName containerName pathToCopy) r2],
          s.retryWithoutDecryption, r3, rfl, he, hoff, hon⟩
  · intro s s' ev r ev' hc hb ih _ hr
    have hdec := uploadBody_decreases E ns podName containerName pathToCopy isToBeDecrypted
      passphrase s s' ev hc hb
    obtain ⟨pre, flag, resp, rfl, h1, h2, h3⟩ := ih (by simpa using hdec.1) hr
    exact ⟨ev ++ pre, flag, resp, by simp, h1, h2, h3⟩

/-- C2, as stated, fails: with encryption enabled, a `gpg` copy step that
returns a non-empty standard error without the OpenPGP token and no transport
error makes the write return success at once. -/
theorem UploadToK8s_success_despite_stderr :
    UploadToK8s (scripted [okResp, okResp, gpgWarning]) probeOn 4 0 demoPath "x".toList
        = some (none, [Event.probe "ns".toList, demoMkdir, demoTouch, demoGpg gpgWarning]) ∧
      gpgWarning.stderr ≠ [] ∧ strings.Contains gpgWarning.stderr noOpenPGP = false := by
  decide

/-- C2, amended: whenever `UploadToK8s` returns success, the last event of the
call is its copy step, and that copy step reported no transport error; when the
encryption probe is disabled its standard error was empty as well, and when it
was the decrypting `gpg` form its standard error was empty or free of the
OpenPGP token.  The call is the one that four or more rounds of the loop
produce. -/
theorem UploadToK8s_success (tr : σ) (toPath fromPath : Str) (fuel : Nat)
    (ev : List Event)
    (h : UploadToK8s E probe fuel tr toPath fromPath = some (none, ev)) :
    (∀ n, 4 ≤ n → UploadToK8s E probe n tr toPath fromPath = some (none, ev)) ∧
      EndsWithGoodCopy (initK8sVariables (uploadSplit toPath fromPath)).1
      (initK8sVariables (uploadSplit toPath fromPath)).2.1
      (initK8sVariables (uploadSplit toPath fromPath)).2.2.1
      (initK8sVariables (uploadSplit toPath fromPath)).2.2.2
      (probe (initK8sVariables (uploadSplit toPath fromPath)).1).1
      (probe (initK8sVariables (uploadSplit toPath fromPath)).1).2 ev := by
  refine ⟨UploadToK8s_stable E probe tr toPath fromPath fuel (none, ev) h, ?_⟩
  unfold UploadToK8s at h
  cases hv : validateK8sPath (strings.Split '/' toPath) with
  | some err =>
    rw [hv] at h
    simp at h
  | none =>
    rw [hv] at h
    simp only at h
    split at h
    · simp at h
    · next r0 ev0 hx =>
      simp only [Option.some.injEq, Prod.mk.injEq] at h
      obtain ⟨rfl, rfl⟩ := h
      obtain ⟨pre, flag, resp, rfl, h1, h2, h3⟩ :=
        uploadLoop_success E _ _ _ _ _ _ fuel _ ev0 (by simp [attempts]) hx
      exact ⟨Event.probe _ :: pre, flag, resp, rfl, h1, h2, h3⟩

theorem plainWrite_run :
    UploadToK8s (scripted []) probeOff 4 0 demoPath "x".toList
      = some (none, plainWriteTrace) := by
  decide

/-- Witness of the amended C2 on a plain write that succeeds at once. -/
theorem UploadToK8s_success_witness :
    EndsWithGoodCopy (initK8sVariables (uploadSplit demoPath "x".toList)).1
      (initK8sVariables (uploadSplit demoPath "x".toList)).2.1
      (initK8sVariables (uploadSplit demoPath "x".toList)).2.2.1
      (initK8sVariables (uploadSplit demoPath "x".toList)).2.2.2
      (probeOff (initK8sVariables (uploadSplit demoPath "x".toList)).1).1
      (probeOff (initK8sVariables (uploadSplit demoPath "x".toList)).1).2 plainWriteTrace :=
  (UploadToK8s_success (scripted []) probeOff 0 demoPath "x".toList 4 plainWriteTrace
    plainWrite_run).2

end UploadSuccess

/-! ## The order of the steps of a write -/

section UploadOrder

variable {σ : Type} (E : Transport σ) (probe : Str → Bool × Str)

theorem mkdir_ne_cp : "mkdir".toList ≠ "cp".toList := by decide

theorem mkdir_ne_gpg : "mkdir".toList ≠ "gpg".toList := by decide

theorem mkdirCall_not_copy (ns podName containerName pathToCopy passphrase : Str) :
    ¬ ((mkdirCall ns podName containerName pathToCopy).command = cpCommand pathToCopy ∨
      (mkdirCall ns podName containerName pathToCopy).command
        = gpgCommand passphrase pathToCopy) := by
  simp [mkdirCall, mkdirCommand, cpCommand, gpgCommand, mkdir_ne_cp, mkdir_ne_gpg]

theorem touchCall_not_copy (ns podName containerName pathToCopy passphrase : Str) :
    ¬ ((touchCall ns podName containerName pathToCopy).command = cpCommand pathToCopy ∨
      (touchCall ns podName containerName pathToCopy).command
        = gpgCommand passphrase pathToCopy) := by
  simp [touchCall, touchCommand, cpCommand, gpgCommand]

theorem CopyPreceded.append {ns podName containerName pathToCopy passphrase : Str}
    {a b : List Event}
    (ha : CopyPreceded ns podName containerName pathToCopy passphrase a)
    (hb : CopyPreceded ns podName containerName pathToCopy passphrase b) :
    CopyPreceded ns podName containerName pathToCopy passphrase (a ++ b) := by
  intro pre c r post heq hc
  rcases List.append_eq_append_iff.mp heq with ⟨a', rfl, hb'⟩ | ⟨c', rfl, hc'⟩
  · obtain ⟨pre', r1, r2, rfl, h⟩ := hb a' c r post hb' hc
    exact ⟨a ++ pre', r1, r2, by simp, h⟩
  · rcases c' with _ | ⟨x, c'⟩
    · simp only [List.nil_append] at hc'
      obtain ⟨pre', r1, r2, hnil, -⟩ := hb [] c r post hc'.symm hc
      simp at hnil
    · simp only [List.cons_append, List.cons.injEq] at hc'
      obtain ⟨rfl, rfl⟩ := hc'
      exact ha pre c r c' rfl hc

theorem Round.copyPreceded {ns podName containerName pathToCopy : Str}
    {isToBeDecrypted : Bool} {passphrase : Str} {s : UploadState σ}
    {ctl : Ctl (UploadState σ) (Option Str)} {ev : List Event}
    (h : Round ns podName containerName pathToCopy isToBeDecrypted passphrase s ctl ev) :
    CopyPreceded ns podName containerName pathToCopy passphrase ev := by
  have hm := mkdirCall_not_copy ns podName containerName pathToCopy passphrase
  have ht := touchCall_not_copy ns podName containerName pathToCopy passphrase
  intro pre c r post heq hc
  cases h with
  | mkdir r1 ctl tl hend =>
    cases hend <;>
      rcases pre with _ | ⟨e1, _ | ⟨e2, pre⟩⟩ <;>
      simp at heq <;> (try obtain ⟨⟨rfl, -⟩, -⟩ := heq) <;> (try exact absurd hc hm)
  | touch r1 r2 ctl tl h1 h2 hend =>
    cases hend <;>
      rcases pre with _ | ⟨e1, _ | ⟨e2, _ | ⟨e3, pre⟩⟩⟩ <;>
      simp at heq <;>
      first
        | (obtain ⟨⟨rfl, -⟩, -⟩ := heq; exact absurd hc hm)
        | (obtain ⟨-, ⟨rfl, -⟩, -⟩ := heq; exact absurd hc ht)
  | copy r1 r2 r3 ctl tl h1 h2 h3 h4 hend =>
    cases hend <;>
      rcases pre with _ | ⟨e1, _ | ⟨e2, _ | ⟨e3, _ | ⟨e4, pre⟩⟩⟩⟩ <;>
      simp at heq <;>
      first
        | (obtain ⟨⟨rfl, -⟩, -⟩ := heq; exact absurd hc hm)
        | (obtain ⟨-, ⟨rfl, -⟩, -⟩ := heq; exact absurd hc ht)
        | (obtain ⟨rfl, rfl, -⟩ := heq; exact ⟨[], r1, r2, rfl, h1, h2, h3, h4⟩)

theorem CopyPreceded.nil (ns podName containerName pathToCopy passphrase : Str) :
    CopyPreceded ns podName containerName pathToCopy passphrase [] := by
  intro pre c r post heq
  simp at heq

theorem CopyPreceded.ofProbe (ns podName containerName pathToCopy passphrase n : Str) :
    CopyPreceded ns podName containerName pathToCopy passphrase [Event.probe n] := by
  intro pre c r post heq
  rcases pre with _ | ⟨e1, _ | ⟨e2, pre⟩⟩ <;> simp at heq

theorem uploadLoop_copyPreceded (ns podName containerName pathToCopy : Str)
    (isToBeDecrypted : Bool) (passphrase : Str) (fuel : Nat) (s : UploadState σ)
    (r : Option Str) (ev : List Event)
    (h : uploadLoop E ns podName containerName pathToCopy isToBeDecrypted passphrase fuel s
      = some (r, ev)) :
    CopyPreceded ns podName containerName pathToCopy passphrase ev := by
  refine runLoop_induct _ _ none
    (fun _ _ ev => CopyPreceded ns podName containerName pathToCopy passphrase ev)
    ?_ ?_ ?_ fuel s r ev h
  · intro _ _
    exact CopyPreceded.nil _ _ _ _ _
  · intro s r ev _ hb
    exact (uploadBody_round E ns podName containerName pathToCopy isToBeDecrypted
      passphrase s _ ev hb).copyPreceded
  · intro s s' ev r ev' _ hb ih
    exact ((uploadBody_round E ns podName containerName pathToCopy isToBeDecrypted
      passphrase s _ ev hb).copyPreceded).append ih

theorem uploadLoop_allSucceed (ns podName containerName pathToCopy : Str)
    (passphrase : Str) (fuel : Nat) (s : UploadState σ)
    (r : Option Str) (ev : List Event) (hs : s.attempt < attempts)
    (h : uploadLoop E ns podName containerName pathToCopy false passphrase fuel s
      = some (r, ev))
    (hall : AllCallsSucceed ev) :
    r = none ∧ ∃ r1 r2 r3,
      ev = [Event.exec (mkdirCall ns podName containerName pathToCopy) r1,
        Event.exec (touchCall ns podName containerName pathToCopy) r2,
        Event.exec ⟨ns, podName, containerName, cpCommand pathToCopy, true, false⟩ r3] := by
  refine runLoop_induct _ _ none
    (fun s r ev => s.attempt < attempts → AllCallsSucceed ev →
      r = none ∧ ∃ r1 r2 r3,
        ev = [Event.exec (mkdirCall ns podName containerName pathToCopy) r1,
          Event.exec (touchCall ns podName containerName pathToCopy) r2,
          Event.exec ⟨ns, podName, containerName, cpCommand pathToCopy, true, false⟩ r3])
    ?_ ?_ ?_ fuel s r ev h hs hall
  · intro s hc hs
    simp at hc
    omega
  · intro s r ev _ hb _ hall
    have hround := uploadBody_round E ns podName containerName pathToCopy false
      passphrase s _ ev hb
    cases hround with
    | mkdir r1 ctl tl hend =>
      have hok := hall _ r1 (List.mem_cons_self _ _)
      cases hend with
      | fail e _ hf => simp [hok.1, hok.2] at hf
      | success hcopy => simp at hcopy
    | touch r1 r2 ctl tl h1 h2 hend =>
      have hok := hall _ r2 (List.mem_cons_of_mem _ (List.mem_cons_self _ _))
      cases hend with
      | fail e _ hf => simp [hok.1, hok.2] at hf
      | success hcopy => simp at hcopy
    | copy r1 r2 r3 ctl tl h1 h2 h3 h4 hend =>
      have hok := hall _ r3
        (List.mem_cons_of_mem _ (List.mem_cons_of_mem _ (List.mem_cons_self _ _)))
      cases hend with
      | fail e _ hf => simp [hok.1, hok.2] at hf
      | success _ _ _ _ => exact ⟨rfl, r1, r2, r3, by simp [copyCall]⟩
  · intro s s' ev r ev' _ hb _ _ hall
    exfalso
    have hround := uploadBody_round E ns podName containerName pathToCopy false
      passphrase s _ ev hb
    cases hround with
    | mkdir r1 ctl tl hend =>
      have hok := hall (mkdirCall ns podName containerName pathToCopy) r1 (by simp)
      cases hend with
      | sleep t _ hf => simp [hok.1, hok.2] at hf
      | downgrade t hcopy => simp at hcopy
    | touch r1 r2 ctl tl h1 h2 hend =>
      have hok := hall (touchCall ns podName containerName pathToCopy) r2 (by simp)
      cases hend with
      | sleep t _ hf => simp [hok.1, hok.2] at hf
      | downgrade t hcopy => simp at hcopy
    | copy r1 r2 r3 ctl tl h1 h2 h3 h4 hend =>
      have hok := hall (copyCall ns podName containerName pathToCopy false passphrase
        s.retryWithoutDecryption) r3 (by simp)
      cases hend with
      | sleep t _ hf => simp [hok.1, hok.2] at hf
      | downgrade t _ hd => simp at hd

/-- C7: in every call of `UploadToK8s` to a valid address, every copy step is
immediately preceded by a successful `touch` of the target, itself immediately
preceded by a successful `mkdir -p` of the directory of the target.  With
encryption disabled and every call succeeding, the events are the probe and
exactly these three calls; for `ns/pod/c/tmp/a/b` they are `mkdir -p /tmp/a`,
`touch /tmp/a/b` and `cp /dev/stdin /tmp/a/b`.  The call is the one that four
or more rounds of the loop produce. -/
theorem UploadToK8s_order (tr : σ) (toPath fromPath : Str) (fuel : Nat)
    (r : Option Str) (ev : List Event)
    (hvalid : 3 ≤ (strings.Split '/' toPath).length)
    (h : UploadToK8s E probe fuel tr toPath fromPath = some (r, ev)) :
    (∀ n, 4 ≤ n → UploadToK8s E probe n tr toPath fromPath = some (r, ev)) ∧
      CopyPreceded (initK8sVariables (uploadSplit toPath fromPath)).1
        (initK8sVariables (uploadSplit toPath fromPath)).2.1
        (initK8sVariables (uploadSplit toPath fromPath)).2.2.1
        (initK8sVariables (uploadSplit toPath fromPath)).2.2.2
        (probe (initK8sVariables (uploadSplit toPath fromPath)).1).2 ev ∧
      ((probe (initK8sVariables (uploadSplit toPath fromPath)).1).1 = false →
        AllCallsSucceed ev →
        r = none ∧ ∃ r1 r2 r3,
          ev = [Event.probe (initK8sVariables (uploadSplit toPath fromPath)).1,
            Event.exec ⟨(initK8sVariables (uploadSplit toPath fromPath)).1,
              (initK8sVariables (uploadSplit toPath fromPath)).2.1,
              (initK8sVariables (uploadSplit toPath fromPath)).2.2.1,
              ["mkdir".toList, "-p".toList,
                filepath.Dir (initK8sVariables (uploadSplit toPath fromPath)).2.2.2],
              false, false⟩ r1,
            Event.exec ⟨(initK8sVariables (uploadSplit toPath fromPath)).1,
              (initK8sVariables (uploadSplit toPath fromPath)).2.1,
              (initK8sVariables (uploadSplit toPath fromPath)).2.2.1,
              ["touch".toList, (initK8sVariables (uploadSplit toPath fromPath)).2.2.2],
              false, false⟩ r2,
            Event.exec ⟨(initK8sVariables (uploadSplit toPath fromPath)).1,
              (initK8sVariables (uploadSplit toPath fromPath)).2.1,
              (initK8sVariables (uploadSplit toPath fromPath)).2.2.1,
              ["cp".toList, "/dev/stdin".toList,
                (initK8sVariables (uploadSplit toPath fromPath)).2.2.2],
              true, false⟩ r3]) ∧
      UploadToK8s (scripted []) probeOff 4 0 "ns/pod/c/tmp/a/b".toList "x".toList
        = some (none, [Event.probe "ns".toList,
          Event.exec ⟨"ns".toList, "pod".toList, "c".toList,
            ["mkdir".toList, "-p".toList, "/tmp/a".toList], false, false⟩ okResp,
          Event.exec ⟨"ns".toList, "pod".toList, "c".toList,
            ["touch".toList, "/tmp/a/b".toList], false, false⟩ okResp,
          Event.exec ⟨"ns".toList, "pod".toList, "c".toList,
            ["cp".toList, "/dev/stdin".toList, "/tmp/a/b".toList], true, false⟩ okResp]) := by
  refine ⟨UploadToK8s_stable E probe tr toPath fromPath fuel (r, ev) h, ?_⟩
  have hv : validateK8sPath (strings.Split '/' toPath) = none := by
    simp [validateK8sPath, hvalid]
  unfold UploadToK8s at h
  rw [hv] at h
  simp only at h
  split at h
  · simp at h
  · next r0 ev0 hx =>
    simp only [Option.some.injEq, Prod.mk.injEq] at h
    obtain ⟨rfl, rfl⟩ := h
    refine ⟨?_, ?_, by decide⟩
    · exact (CopyPreceded.ofProbe _ _ _ _ _ _).append
        (uploadLoop_copyPreceded E _ _ _ _ _ _ fuel _ r0 ev0 hx)
    · intro hoff hall
      rw [hoff] at hx
      have hall' : AllCallsSucceed ev0 := fun c r hm => hall c r (List.mem_cons_of_mem _ hm)
      obtain ⟨hr, r1, r2, r3, hev⟩ := uploadLoop_allSucceed E _ _ _ _ _ fuel _ r0 ev0
        (by simp [attempts]) hx hall'
      exact ⟨hr, r1, r2, r3, by rw [hev]; rfl⟩

/-- Witness of C7 on a plain write that succeeds at once. -/
theorem UploadToK8s_order_witness :
    3 ≤ (strings.Split '/' demoPath).length ∧
      CopyPreceded "ns".toList "pod".toList "c".toList "/tmp/a/b".toList [] plainWriteTrace :=
  ⟨by decide, (UploadToK8s_order (scripted []) probeOff 0 demoPath "x".toList 4 none
    plainWriteTrace (by decide) plainWrite_run).2.1⟩

end UploadOrder

/-! ## The decryption downgrade is one-way -/

section Downgrade

variable {σ : Type} (E : Transport σ) (probe : Str → Bool × Str)

theorem cp_ne_gpg (passphrase pathToCopy : Str) :
    cpCommand pathToCopy ≠ gpgCommand passphrase pathToCopy := by
  simp [cpCommand, gpgCommand]

theorem mkdir_ne_cpCommand (dir pathToCopy : Str) :
    mkdirCommand dir ≠ cpCommand pathToCopy := by
  simp [mkdirCommand, cpCommand, mkdir_ne_cp]

theorem touch_ne_cpCommand (pathToCopy : Str) :
    touchCommand pathToCopy ≠ cpCommand pathToCopy := by
  simp [touchCommand, cpCommand]

variable {ns podName containerName pathToCopy : Str} {isToBeDecrypted : Bool}
  {passphrase : Str}

theorem Round.exec_mem {s : UploadState σ} {ctl : Ctl (UploadState σ) (Option Str)}
    {ev : List Event}
    (h : Round ns podName containerName pathToCopy isToBeDecrypted passphrase s ctl ev)
    (c : Call) (r : Resp) (hm : Event.exec c r ∈ ev) :
    c = mkdirCall ns podName containerName pathToCopy ∨
      c = touchCall ns podName containerName pathToCopy ∨
      c = copyCall ns podName containerName pathToCopy isToBeDecrypted passphrase
        s.retryWithoutDecryption := by
  cases h with
  | mkdir r1 ctl tl hend =>
    cases hend <;> simp at hm <;> simp [hm]
  | touch r1 r2 ctl tl h1 h2 hend =>
    cases hend <;> simp at hm <;> rcases hm with hm | hm <;> simp [hm]
  | copy r1 r2 r3 ctl tl h1 h2 h3 h4 hend =>
    cases hend <;> simp at hm <;> rcases hm with hm | hm | hm <;> simp [hm]

theorem Round.plain_of_cp {s : UploadState σ} {ctl : Ctl (UploadState σ) (Option Str)}
    {ev : List Event}
    (h : Round ns podName containerName pathToCopy isToBeDecrypted passphrase s ctl ev)
    (c : Call) (r : Resp) (hm : Event.exec c r ∈ ev)
    (hc : c.command = cpCommand pathToCopy) :
    ¬ (isToBeDecrypted = true ∧ s.retryWithoutDecryption = false) := by
  intro hgpg
  rcases h.exec_mem c r hm with rfl | rfl | rfl
  · exact mkdir_ne_cpCommand _ _ hc
  · exact touch_ne_cpCommand _ hc
  · simp only [copyCall, hgpg, and_self, if_true] at hc
    exact cp_ne_gpg _ _ hc.symm

theorem Round.allPlain {s : UploadState σ} {ctl : Ctl (UploadState σ) (Option Str)}
    {ev : List Event}
    (h : Round ns podName containerName pathToCopy isToBeDecrypted passphrase s ctl ev)
    (hplain : ¬ (isToBeDecrypted = true ∧ s.retryWithoutDecryption = false)) :
    AllPlain pathToCopy ev := by
  intro c r hm hstdin
  rcases h.exec_mem c r hm with rfl | rfl | rfl
  · simp [mkdirCall] at hstdin
  · simp [touchCall] at hstdin
  · simp only [copyCall, hplain, if_false]

theorem Round.plain_next {s s' : UploadState σ} {ev : List Event}
    (h : Round ns podName containerName pathToCopy isToBeDecrypted passphrase s
      (Ctl.next s') ev)
    (hplain : ¬ (isToBeDecrypted = true ∧ s.retryWithoutDecryption = false)) :
    ¬ (isToBeDecrypted = true ∧ s'.retryWithoutDecryption = false) := by
  rcases h.next with ⟨-, h2, -⟩ | ⟨-, h2, h3, -⟩
  · rw [h2]; exact hplain
  · exact absurd ⟨h2, h3⟩ hplain

theorem uploadLoop_allPlain (fuel : Nat) (s : UploadState σ) (r : Option Str)
    (ev : List Event)
    (h : uploadLoop E ns podName containerName pathToCopy isToBeDecrypted passphrase fuel s
      = some (r, ev))
    (hplain : ¬ (isToBeDecrypted = true ∧ s.retryWithoutDecryption = false)) :
    AllPlain pathToCopy ev := by
  refine runLoop_induct _ _ none
    (fun s _ ev => ¬ (isToBeDecrypted = true ∧ s.retryWithoutDecryption = false) →
      AllPlain pathToCopy ev)
    ?_ ?_ ?_ fuel s r ev h hplain
  · intro _ _ _ c r hm
    simp at hm
  · intro s r ev _ hb hp
    exact (uploadBody_round E ns podName containerName pathToCopy isToBeDecrypted
      passphrase s _ ev hb).allPlain hp
  · intro s s' ev r ev' _ hb ih hp
    have hround := uploadBody_round E ns podName containerName pathToCopy isToBeDecrypted
      passphrase s _ ev hb
    intro c r hm hstdin
    rcases List.mem_append.mp hm with hm | hm
    · exact hround.allPlain hp c r hm hstdin
    · exact ih (hround.plain_next hp) c r hm hstdin

theorem uploadLoop_plainStays (fuel : Nat) (s : UploadState σ) (r : Option Str)
    (ev : List Event)
    (h : uploadLoop E ns podName containerName pathToCopy isToBeDecrypted passphrase fuel s
      = some (r, ev)) :
    PlainStays pathToCopy ev := by
  unfold uploadLoop at h
  induction fuel generalizing s r ev with
  | zero => simp [runLoop] at h
  | succ n ih =>
    rw [runLoop] at h
    split at h
    · rcases hb : uploadBody E ns podName containerName pathToCopy isToBeDecrypted
        passphrase s with ⟨ctl, ev0⟩
      rw [hb] at h
      have hround := uploadBody_round E ns podName containerName pathToCopy isToBeDecrypted
        passphrase s _ ev0 hb
      cases ctl with
      | done r0 =>
        simp only [Option.some.injEq, Prod.mk.injEq] at h
        obtain ⟨-, rfl⟩ := h
        intro a b hab ⟨c1, r1, hm1, hc1⟩ c2 r2 hm2 hstdin
        have hp := hround.plain_of_cp c1 r1 (by rw [hab]; exact List.mem_append_left _ hm1) hc1
        exact hround.allPlain hp c2 r2 (by rw [hab]; exact List.mem_append_right _ hm2) hstdin
      | next s' =>
        simp only at h
        rcases hr : runLoop (fun s => decide (s.attempt < attempts))
          (uploadBody E ns podName containerName pathToCopy isToBeDecrypted passphrase)
          none n s' with _ | ⟨r', ev'⟩
        · rw [hr] at h; simp at h
        · rw [hr] at h
          simp only [Option.some.injEq, Prod.mk.injEq] at h
          obtain ⟨-, rfl⟩ := h
          have ih' := ih s' r' ev' hr
          intro a b hab ⟨c1, r1, hm1, hc1⟩ c2 r2 hm2 hstdin
          rcases List.append_eq_append_iff.mp hab with ⟨a', rfl, hb'⟩ | ⟨c', rfl, hc'⟩
          · rcases List.mem_append.mp hm1 with hm1 | hm1
            · have hp := hround.plain_of_cp c1 r1 hm1 hc1
              exact uploadLoop_allPlain E n s' r' ev' hr (hround.plain_next hp) c2 r2
                (by rw [hb']; exact List.mem_append_right _ hm2) hstdin
            · exact ih' a' b hb' ⟨c1, r1, hm1, hc1⟩ c2 r2 hm2 hstdin
          · have hp := hround.plain_of_cp c1 r1 (List.mem_append_left _ hm1) hc1
            rw [hc'] at hm2
            rcases List.mem_append.mp hm2 with hm2 | hm2
            · exact hround.allPlain hp c2 r2 (List.mem_append_right _ hm2) hstdin
            · exact uploadLoop_allPlain E n s' r' ev' hr (hround.plain_next hp) c2 r2 hm2
                hstdin
    · simp only [Option.some.injEq, Prod.mk.injEq] at h
      obtain ⟨-, rfl⟩ := h
      intro a b hab ⟨c1, r1, hm1, _⟩
      have : a = [] := by
        rcases a with _ | ⟨x, a⟩
        · rfl
        · simp at hab
      rw [this] at hm1
      simp at hm1

end Downgrade

/-! ## The loop states of a write -/

section DowngradeStates

variable {σ : Type} (E : Transport σ) (probe : Str → Bool × Str)

theorem uploadStates_one_way (ns podName containerName pathToCopy : Str)
    (isToBeDecrypted : Bool) (passphrase : Str) (fuel : Nat) (s : UploadState σ) :
    (∀ x ∈ (loopStates (fun s => decide (s.attempt < attempts))
        (uploadBody E ns podName containerName pathToCopy isToBeDecrypted passphrase)
        fuel s).head?, x = s) ∧
      (loopStates (fun s => decide (s.attempt < attempts))
        (uploadBody E ns podName containerName pathToCopy isToBeDecrypted passphrase)
        fuel s).Chain'
        (fun a b => a.retryWithoutDecryption = true → b.retryWithoutDecryption = true) ∧
      (adjacent (loopStates (fun s => decide (s.attempt < attempts))
        (uploadBody E ns podName containerName pathToCopy isToBeDecrypted passphrase)
        fuel s)).countP
          (fun p => p.1.retryWithoutDecryption != p.2.retryWithoutDecryption) ≤
        (if isToBeDecrypted = true ∧ s.retryWithoutDecryption = false then 1 else 0) ∧
      (adjacent (loopStates (fun s => decide (s.attempt < attempts))
        (uploadBody E ns podName containerName pathToCopy isToBeDecrypted passphrase)
        fuel s)).countP (fun p => decide (p.2.attempt ≤ p.1.attempt)) ≤
        (if isToBeDecrypted = true ∧ s.retryWithoutDecryption = false then 1 else 0) := by
  induction fuel generalizing s with
  | zero => simp [loopStates, adjacent]
  | succ n ih =>
    rw [loopStates]
    split
    · rcases hb : uploadBody E ns podName containerName pathToCopy isToBeDecrypted
        passphrase s with ⟨ctl, ev0⟩
      cases ctl with
      | done r0 => simp [adjacent]
      | next s' =>
        simp only
        have hround := uploadBody_round E ns podName containerName pathToCopy
          isToBeDecrypted passphrase s _ ev0 hb
        obtain ⟨ih1, ih2, ih3, ih4⟩ := ih s'
        generalize loopStates _ _ n s' = L at ih1 ih2 ih3 ih4 ⊢
        rcases L with _ | ⟨x, L''⟩
        · simp [adjacent]
        · have hx : x = s' := ih1 x (by simp)
          subst hx
          refine ⟨by simp, ?_, ?_, ?_⟩
          · rw [List.chain'_cons]
            refine ⟨?_, ih2⟩
            rcases hround.next with ⟨-, h2, -⟩ | ⟨-, -, -, h4, -⟩
            · rw [h2]; exact id
            · exact fun _ => h4
          · simp only [adjacent, List.countP_cons]
            rcases hround.next with ⟨-, h2, -⟩ | ⟨-, h2, h3, h4, -⟩
            · rw [h2] at ih3 ⊢
              simpa using ih3
            · rw [h4] at ih3
              simp only [Bool.true_eq_false, and_false, if_false, Nat.le_zero] at ih3
              simp [h2, h3, h4, ih3]
          · simp only [adjacent, List.countP_cons]
            rcases hround.next with ⟨h1, h2, -⟩ | ⟨h1, h2, h3, h4, -⟩
            · rw [h2] at ih4
              have : ¬ (x.attempt ≤ s.attempt) := by omega
              simpa [this] using ih4
            · rw [h4] at ih4
              simp only [Bool.true_eq_false, and_false, if_false, Nat.le_zero] at ih4
              simp [h1, h2, h3, ih4]
    · simp [adjacent]

theorem PlainStays.afterProbe {pathToCopy : Str} {ev : List Event} (n : Str)
    (h : PlainStays pathToCopy ev) : PlainStays pathToCopy (Event.probe n :: ev) := by
  intro a b hab ⟨c1, r1, hm1, hc1⟩ c2 r2 hm2 hstdin
  rcases a with _ | ⟨x, a⟩
  · simp at hm1
  · simp only [List.cons_append, List.cons.injEq] at hab
    obtain ⟨rfl, rfl⟩ := hab
    simp only [List.mem_cons, reduceCtorEq, false_or] at hm1
    exact h a b rfl ⟨c1, r1, hm1, hc1⟩ c2 r2 hm2 hstdin

/-- C9: within one call of `UploadToK8s` the decryption downgrade is one-way and
happens at most once.  Over the loop states at the start of the rounds, the flag
`retryWithoutDecryption` never goes from true back to false, changes at most
once, and the attempt counter fails to advance (is decremented) in at most one
round; in the events, once a copy step was issued as plain `cp` every later copy
step is plain `cp`, and the downgrade is logged at most once.  The call is the
one that four or more rounds of the loop produce. -/
theorem UploadToK8s_downgrade_one_way (tr : σ) (toPath fromPath : Str) (fuel : Nat)
    (r : Option Str) (ev : List Event)
    (h : UploadToK8s E probe fuel tr toPath fromPath = some (r, ev)) :
    (∀ n, 4 ≤ n → UploadToK8s E probe n tr toPath fromPath = some (r, ev)) ∧
      (uploadRounds E probe fuel tr toPath fromPath).Chain'
        (fun a b => a.retryWithoutDecryption = true → b.retryWithoutDecryption = true) ∧
      (adjacent (uploadRounds E probe fuel tr toPath fromPath)).countP
        (fun p => p.1.retryWithoutDecryption != p.2.retryWithoutDecryption) ≤ 1 ∧
      (adjacent (uploadRounds E probe fuel tr toPath fromPath)).countP
        (fun p => decide (p.2.attempt ≤ p.1.attempt)) ≤ 1 ∧
      PlainStays (initK8sVariables (uploadSplit toPath fromPath)).2.2.2 ev ∧
      ev.countP isDowngrade ≤ 1 := by
  refine ⟨UploadToK8s_stable E probe tr toPath fromPath fuel (r, ev) h, ?_⟩
  unfold UploadToK8s at h
  unfold uploadRounds
  cases hv : validateK8sPath (strings.Split '/' toPath) with
  | some err =>
    rw [hv] at h
    simp only [Option.some.injEq, Prod.mk.injEq] at h
    obtain ⟨-, rfl⟩ := h
    refine ⟨by simp, by simp [adjacent], by simp [adjacent], ?_, by simp⟩
    intro a b hab ⟨c1, r1, hm1, _⟩
    have : a = [] := by
      rcases a with _ | ⟨x, a⟩
      · rfl
      · simp at hab
    rw [this] at hm1
    simp at hm1
  | none =>
    rw [hv] at h
    simp only at h ⊢
    split at h
    · simp at h
    · next r0 ev0 hx =>
      simp only [Option.some.injEq, Prod.mk.injEq] at h
      obtain ⟨-, rfl⟩ := h
      obtain ⟨-, h2, h3, h4⟩ := uploadStates_one_way E
        (initK8sVariables (uploadSplit toPath fromPath)).1
        (initK8sVariables (uploadSplit toPath fromPath)).2.1
        (initK8sVariables (uploadSplit toPath fromPath)).2.2.1
        (initK8sVariables (uploadSplit toPath fromPath)).2.2.2
        (probe (initK8sVariables (uploadSplit toPath fromPath)).1).1
        (probe (initK8sVariables (uploadSplit toPath fromPath)).1).2 fuel ⟨0, false, tr⟩
      obtain ⟨-, -, -, h5⟩ := uploadLoop_counts E _ _ _ _ _ _ fuel _ r0 ev0 hx
      refine ⟨h2, ?_, ?_, (uploadLoop_plainStays E fuel _ r0 ev0 hx).afterProbe _, ?_⟩
      · split at h3 <;> omega
      · split at h4 <;> omega
      · simp only [List.countP_cons, isDowngrade, Bool.false_eq_true, if_false, add_zero]
        split at h5 <;> omega

/-- Witness of C9 on the four-round script, whose first round downgrades. -/
theorem UploadToK8s_downgrade_one_way_witness :
    (∀ n, 4 ≤ n → UploadToK8s (scripted fourRounds) probeOn n 0 demoPath "x".toList
        = some (errResp.err, fourRoundsTrace)) ∧
      (uploadRounds (scripted fourRounds) probeOn 4 0 demoPath "x".toList).Chain'
        (fun a b => a.retryWithoutDecryption = true → b.retryWithoutDecryption = true) ∧
      (adjacent (uploadRounds (scripted fourRounds) probeOn 4 0 demoPath "x".toList)).countP
        (fun p => p.1.retryWithoutDecryption != p.2.retryWithoutDecryption) ≤ 1 ∧
      (adjacent (uploadRounds (scripted fourRounds) probeOn 4 0 demoPath "x".toList)).countP
        (fun p => decide (p.2.attempt ≤ p.1.attempt)) ≤ 1 ∧
      PlainStays (initK8sVariables (uploadSplit demoPath "x".toList)).2.2.2 fourRoundsTrace ∧
      fourRoundsTrace.countP isDowngrade ≤ 1 :=
  UploadToK8s_downgrade_one_way (scripted fourRounds) probeOn 0 demoPath "x".toList 4
    errResp.err fourRoundsTrace fourRounds_run

end DowngradeStates

/-! ## Read and remove: standard error on an early attempt -/

/-- C1: evaluation of the code at the failing input.  When the first exec call
returns standard error `busy` and no transport error, `DownloadFromK8s` and
`Clean` return success from that first attempt, after one exec call and without
sleeping, whereas `GetListOfFilesFromK8s` sleeps and executes the command
again. -/
theorem early_stderr_returns_success :
    DownloadFromK8s (scripted [busyResp]) probeOff 3 0 demoPath
        = some (none, [Event.probe "ns".toList,
          Event.exec ⟨"ns".toList, "pod".toList, "c".toList,
            ["cat".toList, "/tmp/a/b".toList], false, true⟩ busyResp]) ∧
      Clean (scripted [busyResp]) 3 0 demoPath
        = some (none, [Event.exec ⟨"ns".toList, "pod".toList, "c".toList,
            ["rm".toList, "/tmp/a/b".toList], false, false⟩ busyResp]) ∧
      GetListOfFilesFromK8s (scripted [busyResp]) 3 0 demoPath "f".toList "*".toList
        = some (([], none), [Event.exec ⟨"ns".toList, "pod".toList, "c".toList,
            ["find".toList, "/tmp/a/b".toList, "-type".toList, "f".toList, "-name".toList,
              "*".toList], false, true⟩ busyResp,
          Event.sleep 1,
          Event.exec ⟨"ns".toList, "pod".toList, "c".toList,
            ["find".toList, "/tmp/a/b".toList, "-type".toList, "f".toList, "-name".toList,
              "*".toList], false, true⟩ okResp]) := by
  decide

/-! ## Listing -/

section Listing

variable {σ : Type} (E : Transport σ)

theorem outLines_foldl (findPath : Str) (lines acc : List Str) :
    lines.foldl
        (fun acc line => if line ≠ [] then acc ++ [strings.Replace line findPath] else acc) acc
      = acc ++ (lines.filter (fun line => line ≠ [])).map
          (fun line => strings.Replace line findPath) := by
  induction lines generalizing acc with
  | nil => simp
  | cons l rest ih =>
    simp only [List.foldl_cons]
    rw [ih]
    by_cases hl : l = []
    · simp [hl]
    · simp [hl, List.filter_cons]

theorem outLines_eq (findPath : Str) (lines : List Str) :
    outLines findPath lines
      = (lines.filter (fun line => line ≠ [])).map
          (fun line => strings.Replace line findPath) := by
  unfold outLines
  rw [outLines_foldl]
  simp

theorem isPrefixOf_append (r t : Str) : r.isPrefixOf (r ++ t) = true := by
  induction r with
  | nil => simp [List.isPrefixOf]
  | cons a r ih => simp [List.isPrefixOf, ih]

theorem Replace_prefix (r t : Str) : strings.Replace (r ++ t) r = t := by
  rcases hrt : r ++ t with _ | ⟨c, rest⟩
  · simp only [List.append_eq_nil] at hrt
    rw [hrt.2]
    rfl
  · rw [strings.Replace, ← hrt, isPrefixOf_append, if_pos rfl]
    simp

theorem listBody_ok (c : Call) (findPath : Str) (s : LoopState σ)
    (h1 : (E s.tr c).1.stderr = []) (h2 : (E s.tr c).1.err = none) :
    listBody E c findPath s
      = (Ctl.done (outLines findPath (strings.Split '\n' (E s.tr c).1.stdout), none),
        [Event.exec c (E s.tr c).1]) := by
  unfold listBody
  simp [h1, h2]

theorem listBody_fail (c : Call) (findPath : Str) (s : LoopState σ)
    (h : (E s.tr c).1.stderr ≠ [] ∨ (E s.tr c).1.err ≠ none) :
    (s.attempt + 1 = attempts ∧ ∃ e, listBody E c findPath s
        = (Ctl.done ([], some e), [Event.exec c (E s.tr c).1]) ∧
        ((E s.tr c).1.stderr ≠ [] → e = stderrError (E s.tr c).1.stderr)) ∨
      (s.attempt + 1 ≠ attempts ∧ listBody E c findPath s
        = (Ctl.next ⟨s.attempt + 1, (E s.tr c).2⟩,
          [Event.exec c (E s.tr c).1, Event.sleep (s.attempt + 1)])) := by
  unfold listBody retryOrReturn
  by_cases ha : s.attempt + 1 = attempts
  · left
    refine ⟨ha, ?_⟩
    by_cases h1 : (E s.tr c).1.stderr = []
    · have h2 : (E s.tr c).1.err ≠ none := by
        rcases h with h | h
        · exact absurd h1 h
        · exact h
      obtain ⟨e, he⟩ := Option.ne_none_iff_exists'.mp h2
      exact ⟨e, by simp [h1, he, ha], fun hne => absurd h1 hne⟩
    · exact ⟨_, by simp [h1, ha], fun _ => rfl⟩
  · right
    refine ⟨ha, ?_⟩
    by_cases h1 : (E s.tr c).1.stderr = []
    · have h2 : (E s.tr c).1.err ≠ none := by
        rcases h with h | h
        · exact absurd h1 h
        · exact h
      simp [h1, h2, ha]
    · simp [h1, ha]

theorem listLoop_lines (c : Call) (findPath : Str) (fuel : Nat) (s : LoopState σ)
    (res : List Str × Option Str) (ev : List Event)
    (h : listLoop E c findPath fuel s = some (res, ev)) :
    ∀ pre c' O post, ev = pre ++ Event.exec c' ⟨[], none, O⟩ :: post →
      res = (outLines findPath (strings.Split '\n' O), none) := by
  refine runLoop_induct _ _ ([], none)
    (fun _ res ev => ∀ pre c' O post, ev = pre ++ Event.exec c' ⟨[], none, O⟩ :: post →
      res = (outLines findPath (strings.Split '\n' O), none))
    ?_ ?_ ?_ fuel s res ev h
  · intro _ _ pre c' O post heq
    simp at heq
  · intro s res ev _ hb pre c' O post heq
    by_cases hok : (E s.tr c).1.stderr = [] ∧ (E s.tr c).1.err = none
    · rw [listBody_ok E c findPath s hok.1 hok.2] at hb
      simp only [Prod.mk.injEq, Ctl.done.injEq] at hb
      obtain ⟨rfl, rfl⟩ := hb
      rcases pre with _ | ⟨e1, pre⟩
      · simp only [List.nil_append, List.cons.injEq, Event.exec.injEq] at heq
        rw [heq.1.2]
      · simp at heq
    · have hf : (E s.tr c).1.stderr ≠ [] ∨ (E s.tr c).1.err ≠ none := by
        by_contra hcon
        simp only [not_or, not_not] at hcon
        exact hok hcon
      rcases listBody_fail E c findPath s hf with ⟨-, e, he, -⟩ | ⟨-, he⟩
      · rw [he] at hb
        simp only [Prod.mk.injEq, Ctl.done.injEq] at hb
        obtain ⟨-, rfl⟩ := hb
        rcases pre with _ | ⟨e1, pre⟩
        · simp only [List.nil_append, List.cons.injEq, Event.exec.injEq] at heq
          rw [heq.1.2] at hok
          simp at hok
        · simp at heq
      · rw [he] at hb
        simp at hb
  · intro s s' ev res ev' _ hb ih pre c' O post heq
    by_cases hok : (E s.tr c).1.stderr = [] ∧ (E s.tr c).1.err = none
    · rw [listBody_ok E c findPath s hok.1 hok.2] at hb
      simp at hb
    · have hf : (E s.tr c).1.stderr ≠ [] ∨ (E s.tr c).1.err ≠ none := by
        by_contra hcon
        simp only [not_or, not_not] at hcon
        exact hok hcon
      rcases listBody_fail E c findPath s hf with ⟨-, e, he, -⟩ | ⟨-, he⟩
      · rw [he] at hb
        simp at hb
      · rw [he] at hb
        simp only [Prod.mk.injEq, Ctl.next.injEq] at hb
        obtain ⟨-, rfl⟩ := hb
        rcases pre with _ | ⟨e1, _ | ⟨e2, pre⟩⟩
        · simp only [List.nil_append, List.cons_append, List.cons.injEq,
            Event.exec.injEq] at heq
          rw [heq.1.2] at hok
          simp at hok
        · simp at heq
        · simp only [List.cons_append, List.cons.injEq, List.nil_append] at heq
          exact ih pre c' O post heq.2.2

theorem listBody_next (c : Call) (findPath : Str) (s s' : LoopState σ) (ev : List Event)
    (hc : decide (s.attempt < attempts) = true)
    (hb : listBody E c findPath s = (Ctl.next s', ev)) :
    decide (s'.attempt < attempts) = true ∧ attempts - s'.attempt < attempts - s.attempt := by
  simp only [decide_eq_true_eq] at hc ⊢
  by_cases hok : (E s.tr c).1.stderr = [] ∧ (E s.tr c).1.err = none
  · rw [listBody_ok E c findPath s hok.1 hok.2] at hb
    simp at hb
  · have hf : (E s.tr c).1.stderr ≠ [] ∨ (E s.tr c).1.err ≠ none := by
      by_contra hcon
      simp only [not_or, not_not] at hcon
      exact hok hcon
    rcases listBody_fail E c findPath s hf with ⟨-, e, he, -⟩ | ⟨hne, he⟩
    · rw [he] at hb
      simp at hb
    · rw [he] at hb
      simp only [Prod.mk.injEq, Ctl.next.injEq] at hb
      obtain ⟨rfl, -⟩ := hb
      simp only
      omega

theorem GetListOfFilesFromK8s_stable (tr : σ) (path findType findName : Str) (fuel : Nat)
    (x : (List Str × Option Str) × List Event)
    (h : GetListOfFilesFromK8s E fuel tr path findType findName = some x) (n : Nat)
    (hn : 3 ≤ n) :
    GetListOfFilesFromK8s E n tr path findType findName = some x := by
  unfold GetListOfFilesFromK8s at h ⊢
  simp only at h ⊢
  cases hv : validateK8sPath (strings.Split '/' path) with
  | some err =>
    rw [hv] at h
    exact h
  | none =>
    rw [hv] at h
    simp only at h ⊢
    unfold listLoop at h ⊢
    obtain ⟨y, hy⟩ := runLoop_terminates (fun s : LoopState σ => decide (s.attempt < attempts))
      (listBody E ⟨(initK8sVariables (strings.Split '/' path)).1,
        (initK8sVariables (strings.Split '/' path)).2.1,
        (initK8sVariables (strings.Split '/' path)).2.2.1,
        ["find".toList, (initK8sVariables (strings.Split '/' path)).2.2.2, "-type".toList,
          findType, "-name".toList, findName], false, true⟩
        (initK8sVariables (strings.Split '/' path)).2.2.2)
      ([], none) (fun s => attempts - s.attempt)
      (fun s hc => by
        simp only [decide_eq_true_eq] at hc
        show 0 < attempts - s.attempt
        omega)
      (fun s s' ev hc hb => listBody_next E _ _ s s' ev hc hb)
      3 ⟨0, tr⟩ (by simp [attempts]) (by simp [attempts])
    have hn' := runLoop_mono _ _ _ hn _ _ hy
    have hmax := runLoop_mono _ _ _ (Nat.le_max_right fuel 3) _ _ hy
    have hmax' := runLoop_mono _ _ _ (Nat.le_max_left fuel 3) _ _ h
    rw [hmax] at hmax'
    simp only [Option.some.injEq] at hmax'
    subst hmax'
    exact hn'

theorem GetListOfFilesFromK8s_returns (tr : σ) (path findType findName : Str) (fuel : Nat)
    (hfuel : 3 ≤ fuel) :
    ∃ x, GetListOfFilesFromK8s E fuel tr path findType findName = some x := by
  unfold GetListOfFilesFromK8s
  simp only
  cases validateK8sPath (strings.Split '/' path) with
  | some err => exact ⟨_, rfl⟩
  | none =>
    simp only
    unfold listLoop
    exact runLoop_terminates (fun s : LoopState σ => decide (s.attempt < attempts))
      (listBody E ⟨(initK8sVariables (strings.Split '/' path)).1,
        (initK8sVariables (strings.Split '/' path)).2.1,
        (initK8sVariables (strings.Split '/' path)).2.2.1,
        ["find".toList, (initK8sVariables (strings.Split '/' path)).2.2.2, "-type".toList,
          findType, "-name".toList, findName], false, true⟩
        (initK8sVariables (strings.Split '/' path)).2.2.2)
      ([], none) (fun s => attempts - s.attempt)
      (fun s hc => by
        simp only [decide_eq_true_eq] at hc
        show 0 < attempts - s.attempt
        omega)
      (fun s s' ev hc hb => listBody_next E _ _ s s' ev hc hb)
      fuel ⟨0, tr⟩ (by simp [attempts]) (by simpa [attempts] using hfuel)

theorem GetListOfFilesFromK8s_lines_of_run (tr : σ) (path findType findName : Str)
    (fuel : Nat) (res : List Str × Option Str) (ev : List Event)
    (h : GetListOfFilesFromK8s E fuel tr path findType findName = some (res, ev)) :
    ∀ pre c O post, ev = pre ++ Event.exec c ⟨[], none, O⟩ :: post →
      res = (((strings.Split '\n' O).filter (fun line => line ≠ [])).map
        (fun line => strings.Replace line
          (initK8sVariables (strings.Split '/' path)).2.2.2), none) := by
  unfold GetListOfFilesFromK8s at h
  simp only at h
  cases hv : validateK8sPath (strings.Split '/' path) with
  | some err =>
    rw [hv] at h
    simp only [Option.some.injEq, Prod.mk.injEq] at h
    obtain ⟨-, rfl⟩ := h
    intro pre c O post heq
    simp at heq
  | none =>
    rw [hv] at h
    simp only at h
    intro pre c O post heq
    rw [← outLines_eq]
    exact listLoop_lines E _ _ fuel _ res ev h pre c O post heq

/-- C8: every call of `GetListOfFilesFromK8s` returns within three rounds of its
loop, and more rounds change nothing.  When an exec call of the call returned
empty standard error, no error and standard output `O`, the call returns, with
a nil error, the non-empty lines of `O` split on the newline, in order, each
with the first occurrence of the root path removed; a line that begins with the
root path loses exactly that prefix.  For root `/var/log` and the output of the
example the result is `/a.log`, `/sub/b.log`, on the first attempt and equally
on the third attempt after two failed ones. -/
theorem GetListOfFilesFromK8s_lines (tr : σ) (path findType findName : Str) (fuel : Nat)
    (hfuel : 3 ≤ fuel) :
    ∃ res ev, GetListOfFilesFromK8s E fuel tr path findType findName = some (res, ev) ∧
      GetListOfFilesFromK8s E 3 tr path findType findName = some (res, ev) ∧
      (∀ pre c O post, ev = pre ++ Event.exec c ⟨[], none, O⟩ :: post →
        res = (((strings.Split '\n' O).filter (fun line => line ≠ [])).map
          (fun line => strings.Replace line
            (initK8sVariables (strings.Split '/' path)).2.2.2), none)) ∧
      (∀ t, strings.Replace ((initK8sVariables (strings.Split '/' path)).2.2.2 ++ t)
        (initK8sVariables (strings.Split '/' path)).2.2.2 = t) ∧
      (GetListOfFilesFromK8s (scripted [findOutput]) 3 0 "ns/pod/c/var/log".toList
          "f".toList "*.log".toList).map (fun x => x.1)
        = some (["/a.log".toList, "/sub/b.log".toList], none) ∧
      (GetListOfFilesFromK8s (scripted [busyResp, errResp, findOutput]) 3 0
          "ns/pod/c/var/log".toList "f".toList "*.log".toList).map (fun x => x.1)
        = some (["/a.log".toList, "/sub/b.log".toList], none) := by
  obtain ⟨⟨res, ev⟩, h⟩ := GetListOfFilesFromK8s_returns E tr path findType findName fuel hfuel
  exact ⟨res, ev, h,
    GetListOfFilesFromK8s_stable E tr path findType findName fuel (res, ev) h 3 (le_refl 3),
    GetListOfFilesFromK8s_lines_of_run E tr path findType findName fuel res ev h,
    fun t => Replace_prefix _ t, by decide, by decide⟩

/-- Witness of C8: a listing whose first attempt fails on standard error and
whose second attempt returns the output of the example. -/
theorem GetListOfFilesFromK8s_lines_witness :
    3 ≤ 3 ∧
      (GetListOfFilesFromK8s (scripted [busyResp, findOutput]) 3 0 "ns/pod/c/var/log".toList
          "f".toList "*.log".toList).map (fun x => x.1)
        = some (["/a.log".toList, "/sub/b.log".toList], none) ∧
      ∃ res ev, GetListOfFilesFromK8s (scripted [busyResp, findOutput]) 3 0
          "ns/pod/c/var/log".toList "f".toList "*.log".toList = some (res, ev) ∧
        ∀ pre c O post, ev = pre ++ Event.exec c ⟨[], none, O⟩ :: post →
          res = (((strings.Split '\n' O).filter (fun line => line ≠ [])).map
            (fun line => strings.Replace line
              (initK8sVariables (strings.Split '/' "ns/pod/c/var/log".toList)).2.2.2),
            none) := by
  refine ⟨by decide, by decide, ?_⟩
  obtain ⟨res, ev, h, -, hlines, -⟩ := GetListOfFilesFromK8s_lines
    (scripted [busyResp, findOutput]) 0 "ns/pod/c/var/log".toList "f".toList
    "*.log".toList 3 (by decide)
  exact ⟨res, ev, h, hlines⟩

end Listing

/-! ## The path grammar -/

section PathGrammar

theorem NoDoubleSlash.append_left {l1 l2 : Str} (h1 : ∀ x ∈ l1, x ≠ '/')
    (h2 : NoDoubleSlash l2) : NoDoubleSlash (l1 ++ l2) := by
  unfold NoDoubleSlash at h2 ⊢
  induction l1 with
  | nil => simpa using h2
  | cons a l1 ih =>
    rw [List.cons_append, List.chain'_cons']
    refine ⟨?_, ih (fun x hx => h1 x (List.mem_cons_of_mem _ hx))⟩
    intro y _ hy
    exact h1 a (List.mem_cons_self _ _) hy.1

theorem NoDoubleSlash.tail {a : Char} {l : Str} (h : NoDoubleSlash (a :: l)) :
    NoDoubleSlash l := by
  unfold NoDoubleSlash at h ⊢
  exact (List.chain'_cons'.mp h).2

theorem backtrack_rooted (out : Str) (h1 : out.getLast? = some '/')
    (h2 : NoDoubleSlash out) (h3 : 1 < out.length) : RootedBuf (backtrack 1 out) := by
  induction out with
  | nil => simp at h3
  | cons c rest ih =>
    have hne : rest ≠ [] := by
      intro h
      simp [h] at h3
    have hlast : rest.getLast? = some '/' := by
      rcases rest with _ | ⟨d, rest'⟩
      · exact absurd rfl hne
      · rw [List.getLast?_cons_cons] at h1
        exact h1
    rw [backtrack]
    split
    · next hc => exact ih hlast h2.tail hc.1
    · next hc =>
      refine ⟨hlast, h2.tail, ?_⟩
      intro hlen
      have hc' : c = '/' := by
        by_contra hcne
        apply hc
        refine ⟨?_, hcne⟩
        have : rest.length ≠ 0 := by simpa using hne
        omega
      intro hhead
      unfold NoDoubleSlash at h2
      exact (List.chain'_cons'.mp h2).1 _ hhead ⟨hc', rfl⟩

theorem element_rooted (out elem : Str) (hne : elem ≠ []) (hall : ∀ x ∈ elem, x ≠ '/')
    (h : RootedBuf out) :
    RootedBuf (elem.reverse ++
      (if (true = true ∧ out.length ≠ 1) ∨ (true = false ∧ out.length ≠ 0)
        then '/' :: out else out)) := by
  obtain ⟨h1, h2, h3⟩ := h
  have hout : out ≠ [] := by
    intro hnil
    simp [hnil] at h1
  have hrev : ∀ x ∈ elem.reverse, x ≠ '/' := fun x hx => hall x (List.mem_reverse.mp hx)
  have hrevne : elem.reverse ≠ [] := by simpa using hne
  refine ⟨?_, ?_, ?_⟩
  · split
    · rw [List.getLast?_append_of_ne_nil _ (by simp)]
      rcases out with _ | ⟨d, out'⟩
      · exact absurd rfl hout
      · rw [List.getLast?_cons_cons]
        exact h1
    · rw [List.getLast?_append_of_ne_nil _ hout]
      exact h1
  · apply NoDoubleSlash.append_left hrev
    split
    · next hc =>
      have hlen : out.length ≠ 1 := by
        rcases hc with hc | hc
        · exact hc.2
        · simp at hc
      unfold NoDoubleSlash at h2 ⊢
      rw [List.chain'_cons']
      exact ⟨fun y hy hyy => h3 hlen (by rw [hyy.2] at hy; exact hy), h2⟩
    · exact h2
  · intro _ hhead
    rcases hr : elem.reverse with _ | ⟨a, l⟩
    · exact hrevne hr
    · rw [hr] at hhead hrev
      simp only [List.cons_append, List.head?_cons, Option.some.injEq] at hhead
      exact hrev a (List.mem_cons_self _ _) hhead

theorem cleanLoop_rooted (fuel : Nat) (p out : Str) (h : RootedBuf out) :
    RootedBuf (cleanLoop true fuel p out 1) := by
  induction fuel generalizing p out with
  | zero => simpa [cleanLoop] using h
  | succ n ih =>
    rcases p with _ | ⟨c, rest⟩
    · simpa [cleanLoop] using h
    · rw [cleanLoop]
      split
      · exact ih _ _ h
      · next hc =>
        split
        · exact ih _ _ h
        · split
          · split
            · next hlen => exact ih _ _ (backtrack_rooted out h.1 h.2.1 hlen)
            · split
              · next hr => simp at hr
              · exact ih _ _ h
          · apply ih
            apply element_rooted _ _ (by simp) _ h
            intro x hx
            rcases List.mem_cons.mp hx with rfl | hx
            · exact hc
            · simpa using (List.mem_takeWhile_imp hx)

theorem Clean_rooted (rest : Str) :
    (filepath.Clean ('/' :: rest)).head? = some '/' ∧
      ¬ (['/', '/'] <:+: filepath.Clean ('/' :: rest)) := by
  have hroot : RootedBuf ['/'] := by
    refine ⟨rfl, ?_, by simp⟩
    unfold NoDoubleSlash
    simp
  obtain ⟨h1, h2, -⟩ := cleanLoop_rooted ('/' :: rest).length rest ['/'] hroot
  have hne : cleanLoop true ('/' :: rest).length rest ['/'] 1 ≠ [] := by
    intro hnil
    rw [hnil] at h1
    simp at h1
  have hlen : (cleanLoop true ('/' :: rest).length rest ['/'] 1).length ≠ 0 := by
    simpa using hne
  unfold filepath.Clean
  simp only [if_true, if_neg hlen]
  constructor
  · rw [List.head?_reverse]
    exact h1
  · intro hinf
    unfold NoDoubleSlash at h2
    have hrev : (['/', '/'] : Str).reverse <:+:
        cleanLoop true ('/' :: rest).length rest ['/'] 1 := by
      rw [← List.reverse_infix]
      simpa using hinf
    have := h2.infix hrev
    simp at this

theorem getAbsPath_eq (path : List Str) :
    getAbsPath path = filepath.Clean ('/' :: '/' :: filepath.Join path) := by
  have hs : "/".toList = ['/'] := rfl
  unfold getAbsPath
  rw [hs]
  simp [filepath.Join, strings.Join]

/-- C6: every address that splits on `/` into three or more segments is accepted
by `validateK8sPath`, and `initK8sVariables` returns its first three segments as
namespace, pod and container together with a path in normalized absolute form:
the path begins with `/` and contains no `//`. -/
theorem initK8sVariables_absolute (s : Str) (h : 3 ≤ (strings.Split '/' s).length) :
    validateK8sPath (strings.Split '/' s) = none ∧
      (strings.Split '/' s).take 3
        = [(initK8sVariables (strings.Split '/' s)).1,
          (initK8sVariables (strings.Split '/' s)).2.1,
          (initK8sVariables (strings.Split '/' s)).2.2.1] ∧
      (initK8sVariables (strings.Split '/' s)).2.2.2.head? = some '/' ∧
      ¬ (['/', '/'] <:+: (initK8sVariables (strings.Split '/' s)).2.2.2) := by
  refine ⟨by simp [validateK8sPath, h], ?_, ?_⟩
  · generalize strings.Split '/' s = l at h
    rcases l with _ | ⟨a, _ | ⟨b, _ | ⟨c, l⟩⟩⟩
    · simp at h
    · simp at h
    · simp at h
    · simp [initK8sVariables]
  · have : (initK8sVariables (strings.Split '/' s)).2.2.2
        = filepath.Clean ('/' :: '/' :: filepath.Join ((strings.Split '/' s).drop 3)) := by
      simp only [initK8sVariables]
      exact getAbsPath_eq _
    rw [this]
    exact Clean_rooted _

/-- Witness of C6 on an address with empty, `.` and `..` segments. -/
theorem initK8sVariables_absolute_witness :
    3 ≤ (strings.Split '/' "ns/pod/c//a/../b/./".toList).length ∧
      (initK8sVariables (strings.Split '/' "ns/pod/c//a/../b/./".toList)).2.2.2.head?
        = some '/' ∧
      ¬ (['/', '/'] <:+:
        (initK8sVariables (strings.Split '/' "ns/pod/c//a/../b/./".toList)).2.2.2) :=
  ⟨by decide,
    (initK8sVariables_absolute "ns/pod/c//a/../b/./".toList (by decide)).2.2⟩

end PathGrammar

/-! ## Addresses that are too short -/

section BadAddress

theorem Split_ne_nil (sep : Char) (s : Str) : strings.Split sep s ≠ [] := by
  induction s with
  | nil => simp [strings.Split]
  | cons c rest ih =>
    rw [strings.Split]
    split
    · simp
    · split
      · next h => exact absurd h ih
      · simp

theorem Join_Split (s : Str) : strings.Join (strings.Split '/' s) = s := by
  induction s with
  | nil => simp [strings.Split, strings.Join]
  | cons c rest ih =>
    rw [strings.Split]
    split
    · next hc =>
      rcases hs : strings.Split '/' rest with _ | ⟨h, t⟩
      · exact absurd hs (Split_ne_nil _ _)
      · rw [hs] at ih
        simp [strings.Join, ih, hc]
    · split
      · next h => exact absurd h (Split_ne_nil _ _)
      · next h t hs =>
        rw [hs] at ih
        rcases t with _ | ⟨t1, t⟩
        · simp only [strings.Join] at ih ⊢
          rw [ih]
        · simp only [strings.Join] at ih ⊢
          rw [← ih]
          simp

theorem Split_mem_no_sep (s x : Str) (hx : x ∈ strings.Split '/' s) : '/' ∉ x := by
  induction s generalizing x with
  | nil =>
    simp only [strings.Split, List.mem_singleton] at hx
    simp [hx]
  | cons c rest ih =>
    rw [strings.Split] at hx
    split at hx
    · rcases List.mem_cons.mp hx with rfl | hx
      · simp
      · exact ih x hx
    · next hc =>
      split at hx
      · next h => exact absurd h (Split_ne_nil _ _)
      · next h t hs =>
        rcases List.mem_cons.mp hx with rfl | hx
        · have := ih h (by rw [hs]; exact List.mem_cons_self _ _)
          simp only [List.mem_cons, not_or]
          exact ⟨fun heq => hc heq.symm, this⟩
        · exact ih x (by rw [hs]; exact List.mem_cons_of_mem _ hx)

theorem takeWhile_plain (xs t : Str) (hxs : '/' ∉ xs) (ht : t = [] ∨ t.head? = some '/') :
    (xs ++ t).takeWhile (fun x => x ≠ '/') = xs ∧
      (xs ++ t).dropWhile (fun x => x ≠ '/') = t := by
  induction xs with
  | nil =>
    rcases ht with rfl | ht
    · simp
    · rcases t with _ | ⟨a, t⟩
      · simp
      · simp only [List.head?_cons, Option.some.injEq] at ht
        simp [ht]
  | cons a xs ih =>
    simp only [List.mem_cons, not_or] at hxs
    have ha : a ≠ '/' := fun h => hxs.1 h.symm
    have ih' := ih hxs.2
    simp only [ne_eq, decide_not] at ih' ⊢
    simp [List.takeWhile_cons, List.dropWhile_cons, ha, ih']

theorem cleanLoop_element (fuel : Nat) (x t out : Str) (dotdot : Nat) (hx : PlainSegment x)
    (ht : t = [] ∨ t.head? = some '/') :
    cleanLoop false (fuel + 1) (x ++ t) out dotdot
      = cleanLoop false fuel t
          (x.reverse ++ (if out.length ≠ 0 then '/' :: out else out)) dotdot := by
  obtain ⟨h1, h2, h3, h4⟩ := hx
  rcases x with _ | ⟨c, xs⟩
  · exact absurd rfl h1
  · simp only [List.mem_cons, not_or] at h4
    have hc : c ≠ '/' := fun h => h4.1 h.symm
    obtain ⟨htk, hdr⟩ := takeWhile_plain xs t h4.2 ht
    rw [List.cons_append, cleanLoop, if_neg hc]
    have hb2 : ¬ (c = '.' ∧ (xs ++ t = [] ∨ (xs ++ t).head? = some '/')) := by
      rintro ⟨rfl, h⟩
      rcases xs with _ | ⟨d, xs⟩
      · exact h2 rfl
      · simp only [List.cons_append, reduceCtorEq, List.head?_cons, Option.some.injEq,
          false_or] at h
        simp only [List.mem_cons, not_or] at h4
        exact h4.2.1 h.symm
    have hb3 : ¬ (c = '.' ∧ (xs ++ t).head? = some '.' ∧
        ((xs ++ t).tail = [] ∨ (xs ++ t).tail.head? = some '/')) := by
      rintro ⟨rfl, hd, h⟩
      rcases xs with _ | ⟨d, xs⟩
      · simp only [List.nil_append] at hd
        rcases ht with rfl | ht
        · simp at hd
        · rw [ht] at hd
          simp at hd
      · simp only [List.cons_append, List.head?_cons, Option.some.injEq] at hd
        subst hd
        simp only [List.cons_append, List.tail_cons] at h
        rcases xs with _ | ⟨e, xs⟩
        · exact h3 rfl
        · simp only [List.cons_append, reduceCtorEq, List.head?_cons, Option.some.injEq,
            false_or] at h
          simp only [List.mem_cons, not_or] at h4
          exact h4.2.2.1 h.symm
    rw [if_neg hb2, if_neg hb3, htk, hdr]
    simp

theorem cleanLoop_nil (rooted : Bool) (fuel : Nat) (out : Str) (dotdot : Nat) :
    cleanLoop rooted fuel [] out dotdot = out := by
  cases fuel <;> simp [cleanLoop]

theorem Clean_one (a : Str) (ha : PlainSegment a) : filepath.Clean a = a := by
  rcases a with _ | ⟨c, xs⟩
  · exact absurd rfl ha.1
  · have hc : c ≠ '/' := by
      intro h
      exact ha.2.2.2 (by simp [h])
    have hstep := cleanLoop_element xs.length (c :: xs) [] [] 0 ha (Or.inl rfl)
    simp only [List.append_nil, cleanLoop_nil] at hstep
    unfold filepath.Clean
    simp only [if_neg hc, List.length_cons, hstep]
    simp

theorem Clean_two (a b : Str) (ha : PlainSegment a) (hb : PlainSegment b) :
    filepath.Clean (a ++ '/' :: b) = a ++ '/' :: b := by
  rcases a with _ | ⟨c, xs⟩
  · exact absurd rfl ha.1
  · rcases b with _ | ⟨d, ys⟩
    · exact absurd rfl hb.1
    · have hc : c ≠ '/' := by
        intro h
        exact ha.2.2.2 (by simp [h])
      have hlen : ((c :: xs) ++ '/' :: d :: ys).length = (xs.length + ys.length) + 2 + 1 := by
        simp
        omega
      have h1 := cleanLoop_element (xs.length + ys.length + 2) (c :: xs) ('/' :: d :: ys) [] 0
        ha (Or.inr rfl)
      have h2 : cleanLoop false (xs.length + ys.length + 1 + 1) ('/' :: d :: ys)
          ((c :: xs).reverse) 0
          = cleanLoop false (xs.length + ys.length + 1) (d :: ys) ((c :: xs).reverse) 0 := by
        rw [cleanLoop, if_pos rfl]
      have h3 := cleanLoop_element (xs.length + ys.length) (d :: ys) [] ((c :: xs).reverse) 0
        hb (Or.inl rfl)
      simp only [List.append_nil, cleanLoop_nil] at h3
      simp only [List.length_nil, ne_eq, not_true_eq_false, if_false, List.append_nil] at h1
      unfold filepath.Clean
      simp only [List.cons_append, if_neg hc]
      rw [List.cons_append] at hlen h1
      rw [hlen, h1, h2, h3]
      simp

theorem Join_Split_plain (s : Str) (hlen : (strings.Split '/' s).length < 3)
    (hplain : ∀ x ∈ strings.Split '/' s, x ≠ [] ∧ x ≠ ['.'] ∧ x ≠ ['.', '.']) :
    filepath.Join (strings.Split '/' s) = s := by
  have hjoin := Join_Split s
  have hsep := Split_mem_no_sep s
  rcases hs : strings.Split '/' s with _ | ⟨a, _ | ⟨b, _ | ⟨c, l⟩⟩⟩
  · exact absurd hs (Split_ne_nil _ _)
  · rw [hs] at hjoin hsep hplain
    have ha : PlainSegment a := by
      obtain ⟨h1, h2, h3⟩ := hplain a (by simp)
      exact ⟨h1, h2, h3, hsep a (by simp)⟩
    simp only [strings.Join] at hjoin
    subst hjoin
    simp only [filepath.Join, ne_eq, ha.1, not_false_eq_true, if_true, strings.Join]
    exact Clean_one a ha
  · rw [hs] at hjoin hsep hplain
    have ha : PlainSegment a := by
      obtain ⟨h1, h2, h3⟩ := hplain a (by simp)
      exact ⟨h1, h2, h3, hsep a (by simp)⟩
    have hb : PlainSegment b := by
      obtain ⟨h1, h2, h3⟩ := hplain b (by simp)
      exact ⟨h1, h2, h3, hsep b (by simp)⟩
    simp only [strings.Join] at hjoin
    subst hjoin
    simp only [filepath.Join, ne_eq, ha.1, not_false_eq_true, if_true, strings.Join]
    exact Clean_two a b ha hb
  · rw [hs] at hlen
    simp only [List.length_cons] at hlen
    omega

variable {σ : Type} (E : Transport σ) (probe : Str → Bool × Str)

/-- C5, as stated, fails: the address `a/` splits into two segments and is
rejected before any exec call, but the message is `illegal path: a`, which does
not contain the original string `a/`. -/
theorem short_address_message_cleaned :
    GetListOfFilesFromK8s (scripted []) 3 0 "a/".toList "f".toList "*".toList
        = some (([], some "illegal path: a".toList), []) ∧
      ¬ ("a/".toList <:+: "illegal path: a".toList) := by
  decide

/-- C5, amended: for every address that splits on `/` into fewer than 3
segments, each of list, read, write and remove returns an error without any
event (no exec call, no probe, no sleep), whatever the transport, the probe and
the number of rounds allowed; the message is `illegal path: ` followed by
`filepath.Join` of the segments, which is the address itself when every segment
is non-empty and none is `.` or `..`. -/
theorem short_address_rejected (fuel : Nat) (tr : σ) (s findType findName fromPath : Str)
    (h : (strings.Split '/' s).length < 3) :
    GetListOfFilesFromK8s E fuel tr s findType findName
        = some (([], some ("illegal path: ".toList ++ filepath.Join (strings.Split '/' s))),
          []) ∧
      DownloadFromK8s E probe fuel tr s
        = some (some ("illegal path: ".toList ++ filepath.Join (strings.Split '/' s)), []) ∧
      UploadToK8s E probe fuel tr s fromPath
        = some (some ("illegal path: ".toList ++ filepath.Join (strings.Split '/' s)), []) ∧
      Clean E fuel tr s
        = some (some ("illegal path: ".toList ++ filepath.Join (strings.Split '/' s)), []) ∧
      ((∀ x ∈ strings.Split '/' s, x ≠ [] ∧ x ≠ ['.'] ∧ x ≠ ['.', '.']) →
        filepath.Join (strings.Split '/' s) = s) := by
  have hv : validateK8sPath (strings.Split '/' s)
      = some ("illegal path: ".toList ++ filepath.Join (strings.Split '/' s)) := by
    unfold validateK8sPath
    rw [if_neg (by omega)]
  refine ⟨?_, ?_, ?_, ?_, Join_Split_plain s h⟩
  · unfold GetListOfFilesFromK8s
    simp only [hv]
  · unfold DownloadFromK8s
    simp only [hv]
  · unfold UploadToK8s
    simp only [hv]
  · unfold Clean
    simp only [hv]

/-- Witness of the amended C5 on the address `ns/pod`. -/
theorem short_address_rejected_witness :
    (strings.Split '/' "ns/pod".toList).length < 3 ∧
      UploadToK8s (scripted []) probeOn 0 0 "ns/pod".toList "x".toList
        = some (some ("illegal path: ".toList
          ++ filepath.Join (strings.Split '/' "ns/pod".toList)), []) ∧
      filepath.Join (strings.Split '/' "ns/pod".toList) = "ns/pod".toList :=
  ⟨by decide,
    (short_address_rejected (scripted []) probeOn 0 0 "ns/pod".toList "f".toList "*".toList
      "x".toList (by decide)).2.2.1,
    (short_address_rejected (scripted []) probeOn 0 0 "ns/pod".toList "f".toList "*".toList
      "x".toList (by decide)).2.2.2.2 (by decide)⟩

end BadAddress

/-! ## The error of the final attempt -/

section FinalAttempt

theorem doPrintf_plain (fuel : Nat) (s : Str) (hs : '%' ∉ s) (hfuel : s.length ≤ fuel) :
    doPrintf fuel s = s := by
  induction s generalizing fuel with
  | nil => cases fuel <;> simp [doPrintf]
  | cons c rest ih =>
    rcases fuel with _ | n
    · simp at hfuel
    · simp only [List.mem_cons, not_or] at hs
      have hc : c ≠ '%' := fun h => hs.1 h.symm
      rw [doPrintf, if_neg hc, ih n hs.2 (by simpa using hfuel)]

theorem stderrError_plain (S : Str) (hS : '%' ∉ S) :
    stderrError S = "STDERR: ".toList ++ S := by
  unfold stderrError fmt.Errorf
  apply doPrintf_plain _ _ _ (le_refl _)
  have hp : '%' ∉ "STDERR: ".toList := by decide
  simp only [List.mem_append, not_or]
  exact ⟨hp, hS⟩

variable {σ : Type} (E : Transport σ)

theorem execBody_final (c : Call) (s : LoopState σ)
    (hs : s.attempt + 1 = attempts) (hne : (E s.tr c).1.stderr ≠ []) :
    execBody E c s
      = (Ctl.done (some (stderrError (E s.tr c).1.stderr)), [Event.exec c (E s.tr c).1]) := by
  unfold execBody
  simp [hs, hne]

/-- C4, as stated, fails twice.  With encryption enabled, a copy step of the
final attempt that returns standard error `boom` together with a transport
error makes `UploadToK8s` return the transport error, not `STDERR: boom`.  And
a standard error holding a `%` is not surfaced unaltered: `100%` on the final
attempt of a listing gives the message `STDERR: 100%!(NOVERB)`. -/
theorem final_stderr_not_surfaced :
    (UploadToK8s (scripted [errResp, errResp, okResp, okResp, boomResp]) probeOn 4 0
        demoPath "x".toList).map (fun x => x.1) = some boomResp.err ∧
      boomResp.err ≠ some ("STDERR: ".toList ++ boomResp.stderr) ∧
      (GetListOfFilesFromK8s (scripted [errResp, errResp, percentResp]) 3 0 demoPath
        "f".toList "*".toList).map (fun x => x.1)
        = some ([], some "STDERR: 100%!(NOVERB)".toList) ∧
      "STDERR: 100%!(NOVERB)".toList ≠ "STDERR: ".toList ++ percentResp.stderr := by
  decide

end FinalAttempt

/-! ## The third attempt of the whole operations -/

section ThirdAttempt

variable {S R : Type} (cond : S → Bool) (body : S → Ctl S R × List Event) (exit : R)

theorem runLoop_third (att : S → Nat) (Q : Call → Resp → Prop)
    (good : Call → Resp → R → Prop)
    (hinner : ∀ s ctl ev, cond s = true → body s = (ctl, ev) →
      ∀ pre c r post, ev = pre ++ Event.exec c r :: post → Event.sleep 2 ∉ pre)
    (hnext : ∀ s s' ev, cond s = true → body s = (Ctl.next s', ev) →
      (Event.sleep 2 ∈ ev → att s' = 2) ∧ (att s = 2 → att s' = 2))
    (hthird : ∀ s ctl ev, cond s = true → body s = (ctl, ev) → att s = 2 →
      ∀ pre c r post, ev = pre ++ Event.exec c r :: post → Q c r →
        ∃ res, ctl = Ctl.done res ∧ good c r res ∧ post = []) :
    ∀ fuel s res ev, runLoop cond body exit fuel s = some (res, ev) →
      ∀ pre c r post, ev = pre ++ Event.exec c r :: post →
        (Event.sleep 2 ∈ pre ∨ att s = 2) → Q c r → good c r res ∧ post = [] := by
  refine runLoop_induct cond body exit
    (fun s res ev => ∀ pre c r post, ev = pre ++ Event.exec c r :: post →
      (Event.sleep 2 ∈ pre ∨ att s = 2) → Q c r → good c r res ∧ post = [])
    ?_ ?_ ?_
  · intro s _ pre c r post heq
    simp at heq
  · intro s res ev hc hb pre c r post heq hor hq
    have hatt : att s = 2 := by
      rcases hor with h | h
      · exact absurd h (hinner s _ ev hc hb pre c r post heq)
      · exact h
    obtain ⟨res', hres, hgood, hpost⟩ := hthird s _ ev hc hb hatt pre c r post heq hq
    simp only [Ctl.done.injEq] at hres
    subst hres
    exact ⟨hgood, hpost⟩
  · intro s s' ev res ev' hc hb ih pre c r post heq hor hq
    obtain ⟨hn1, hn2⟩ := hnext s s' ev hc hb
    rcases List.append_eq_append_iff.mp heq with ⟨a', rfl, hb'⟩ | ⟨c', hc1, hc2⟩
    · apply ih a' c r post hb' _ hq
      rcases hor with h | h
      · rcases List.mem_append.mp h with h | h
        · exact Or.inr (hn1 h)
        · exact Or.inl h
      · exact Or.inr (hn2 h)
    · rcases c' with _ | ⟨x, c'⟩
      · simp only [List.nil_append] at hc2
        simp only [List.append_nil] at hc1
        apply ih [] c r post hc2.symm _ hq
        rcases hor with h | h
        · exact Or.inr (hn1 (by rw [hc1]; exact h))
        · exact Or.inr (hn2 h)
      · simp only [List.cons_append, List.cons.injEq] at hc2
        obtain ⟨rfl, rfl⟩ := hc2
        have hatt : att s = 2 := by
          rcases hor with h | h
          · exact absurd h (hinner s _ ev hc hb pre c r c' hc1)
          · exact h
        obtain ⟨res', hres, -, -⟩ := hthird s _ ev hc hb hatt pre c r c' hc1 hq
        simp at hres

end ThirdAttempt

section ThirdAttemptLoops

variable {σ : Type} (E : Transport σ)

theorem listBody_shape (c : Call) (findPath : Str) (s : LoopState σ) :
    (∃ res, listBody E c findPath s = (Ctl.done res, [Event.exec c (E s.tr c).1]) ∧
        (s.attempt + 1 = attempts → (E s.tr c).1.stderr ≠ [] →
          res = ([], some (stderrError (E s.tr c).1.stderr)))) ∨
      (listBody E c findPath s
          = (Ctl.next ⟨s.attempt + 1, (E s.tr c).2⟩,
            [Event.exec c (E s.tr c).1, Event.sleep (s.attempt + 1)]) ∧
        s.attempt + 1 ≠ attempts) := by
  by_cases hok : (E s.tr c).1.stderr = [] ∧ (E s.tr c).1.err = none
  · left
    exact ⟨_, listBody_ok E c findPath s hok.1 hok.2, fun _ hne => absurd hok.1 hne⟩
  · have hf : (E s.tr c).1.stderr ≠ [] ∨ (E s.tr c).1.err ≠ none := by
      by_contra hcon
      simp only [not_or, not_not] at hcon
      exact hok hcon
    rcases listBody_fail E c findPath s hf with ⟨-, e, he, hmsg⟩ | ⟨hne, he⟩
    · left
      refine ⟨_, he, fun _ hs => ?_⟩
      rw [hmsg hs]
    · right
      exact ⟨he, hne⟩

theorem execBody_shape (c : Call) (s : LoopState σ) :
    (∃ res, execBody E c s = (Ctl.done res, [Event.exec c (E s.tr c).1]) ∧
        (s.attempt + 1 = attempts → (E s.tr c).1.stderr ≠ [] →
          res = some (stderrError (E s.tr c).1.stderr))) ∨
      (execBody E c s
          = (Ctl.next ⟨s.attempt + 1, (E s.tr c).2⟩,
            [Event.exec c (E s.tr c).1, Event.sleep (s.attempt + 1)]) ∧
        s.attempt + 1 ≠ attempts) := by
  by_cases ha : s.attempt + 1 = attempts
  · left
    by_cases hs : (E s.tr c).1.stderr = []
    · by_cases he : (E s.tr c).1.err = none
      · exact ⟨none, by simp [execBody, execRest, ha, hs, he], fun _ hne => absurd hs hne⟩
      · exact ⟨(E s.tr c).1.err, by simp [execBody, ha, hs, he],
          fun _ hne => absurd hs hne⟩
    · exact ⟨_, execBody_final E c s ha hs, fun _ _ => rfl⟩
  · by_cases he : (E s.tr c).1.err = none
    · left
      exact ⟨none, by simp [execBody, execRest, ha, he], fun h => absurd h ha⟩
    · right
      exact ⟨by simp [execBody, execRest, ha, he], ha⟩

theorem listLoop_third (c : Call) (findPath : Str) (fuel : Nat) (s : LoopState σ)
    (res : List Str × Option Str) (ev : List Event)
    (h : listLoop E c findPath fuel s = some (res, ev)) :
    ∀ pre c' r post, ev = pre ++ Event.exec c' r :: post →
      (Event.sleep 2 ∈ pre ∨ s.attempt = 2) → r.stderr ≠ [] →
      res = ([], some (stderrError r.stderr)) ∧ post = [] := by
  refine runLoop_third _ _ ([], none) (fun s : LoopState σ => s.attempt)
    (fun _ r => r.stderr ≠ []) (fun _ r res => res = ([], some (stderrError r.stderr)))
    ?_ ?_ ?_ fuel s res ev h
  · intro s ctl ev _ hb pre c' r post heq
    rcases listBody_shape E c findPath s with ⟨res, hr, -⟩ | ⟨hr, -⟩ <;>
      rw [hr] at hb <;> simp only [Prod.mk.injEq] at hb <;> obtain ⟨-, rfl⟩ := hb <;>
      rcases pre with _ | ⟨e1, _ | ⟨e2, pre⟩⟩ <;> simp at heq ⊢
  · intro s s' ev _ hb
    rcases listBody_shape E c findPath s with ⟨res, hr, -⟩ | ⟨hr, hne⟩
    · rw [hr] at hb
      simp at hb
    · rw [hr] at hb
      simp only [Prod.mk.injEq, Ctl.next.injEq] at hb
      obtain ⟨rfl, rfl⟩ := hb
      constructor
      · intro hm
        simp only [List.mem_cons, reduceCtorEq, Event.sleep.injEq, List.mem_singleton,
          List.not_mem_nil, or_false, false_or] at hm
        show s.attempt + 1 = 2
        omega
      · intro h2
        have h2' : s.attempt = 2 := h2
        simp only [attempts] at hne
        omega
  · intro s ctl ev _ hb h2 pre c' r post heq hq
    rcases listBody_shape E c findPath s with ⟨res, hr, hmsg⟩ | ⟨hr, hne⟩
    · rw [hr] at hb
      simp only [Prod.mk.injEq] at hb
      obtain ⟨rfl, rfl⟩ := hb
      rcases pre with _ | ⟨e1, pre⟩
      · simp only [List.nil_append, List.cons.injEq, Event.exec.injEq] at heq
        obtain ⟨⟨-, rfl⟩, rfl⟩ := heq
        have h2' : s.attempt = 2 := h2
        exact ⟨res, rfl, hmsg (by simp [attempts, h2']) hq, rfl⟩
      · simp at heq
    · have h2' : s.attempt = 2 := h2
      simp only [attempts] at hne
      omega

theorem execLoop_third (c : Call) (fuel : Nat) (s : LoopState σ)
    (res : Option Str) (ev : List Event)
    (h : execLoop E c fuel s = some (res, ev)) :
    ∀ pre c' r post, ev = pre ++ Event.exec c' r :: post →
      (Event.sleep 2 ∈ pre ∨ s.attempt = 2) → r.stderr ≠ [] →
      res = some (stderrError r.stderr) ∧ post = [] := by
  refine runLoop_third _ _ none (fun s : LoopState σ => s.attempt)
    (fun _ r => r.stderr ≠ []) (fun _ r res => res = some (stderrError r.stderr))
    ?_ ?_ ?_ fuel s res ev h
  · intro s ctl ev _ hb pre c' r post heq
    rcases execBody_shape E c s with ⟨res, hr, -⟩ | ⟨hr, -⟩ <;>
      rw [hr] at hb <;> simp only [Prod.mk.injEq] at hb <;> obtain ⟨-, rfl⟩ := hb <;>
      rcases pre with _ | ⟨e1, _ | ⟨e2, pre⟩⟩ <;> simp at heq ⊢
  · intro s s' ev _ hb
    rcases execBody_shape E c s with ⟨res, hr, -⟩ | ⟨hr, hne⟩
    · rw [hr] at hb
      simp at hb
    · rw [hr] at hb
      simp only [Prod.mk.injEq, Ctl.next.injEq] at hb
      obtain ⟨rfl, rfl⟩ := hb
      constructor
      · intro hm
        simp only [List.mem_cons, reduceCtorEq, Event.sleep.injEq, List.mem_singleton,
          List.not_mem_nil, or_false, false_or] at hm
        show s.attempt + 1 = 2
        omega
      · intro h2
        have h2' : s.attempt = 2 := h2
        simp only [attempts] at hne
        omega
  · intro s ctl ev _ hb h2 pre c' r post heq hq
    rcases execBody_shape E c s with ⟨res, hr, hmsg⟩ | ⟨hr, hne⟩
    · rw [hr] at hb
      simp only [Prod.mk.injEq] at hb
      obtain ⟨rfl, rfl⟩ := hb
      rcases pre with _ | ⟨e1, pre⟩
      · simp only [List.nil_append, List.cons.injEq, Event.exec.injEq] at heq
        obtain ⟨⟨-, rfl⟩, rfl⟩ := heq
        have h2' : s.attempt = 2 := h2
        exact ⟨res, rfl, hmsg (by simp [attempts, h2']) hq, rfl⟩
      · simp at heq
    · have h2' : s.attempt = 2 := h2
      simp only [attempts] at hne
      omega

end ThirdAttemptLoops

section ThirdAttemptUpload

variable {σ : Type} (E : Transport σ)

variable {ns podName containerName pathToCopy : Str} {isToBeDecrypted : Bool}
  {passphrase : Str}

theorem Round.no_sleep_before_exec {s : UploadState σ}
    {ctl : Ctl (UploadState σ) (Option Str)} {ev : List Event}
    (h : Round ns podName containerName pathToCopy isToBeDecrypted passphrase s ctl ev) :
    ∀ pre c r post, ev = pre ++ Event.exec c r :: post → Event.sleep 2 ∉ pre := by
  intro pre c r post heq
  cases h with
  | mkdir r1 ctl tl hend =>
    cases hend <;> rcases pre with _ | ⟨e1, _ | ⟨e2, pre⟩⟩ <;> simp at heq ⊢
  | touch r1 r2 ctl tl h1 h2 hend =>
    cases hend <;> rcases pre with _ | ⟨e1, _ | ⟨e2, _ | ⟨e3, pre⟩⟩⟩ <;> simp at heq ⊢ <;>
      (obtain ⟨rfl, -⟩ := heq; simp)
  | copy r1 r2 r3 ctl tl h1 h2 h3 h4 hend =>
    cases hend <;> rcases pre with _ | ⟨e1, _ | ⟨e2, _ | ⟨e3, _ | ⟨e4, pre⟩⟩⟩⟩ <;>
      simp at heq ⊢ <;>
      first
        | (obtain ⟨rfl, rfl, -⟩ := heq; simp)
        | (obtain ⟨rfl, -⟩ := heq; simp)

theorem Round.third_next {s s' : UploadState σ} {ev : List Event}
    (h : Round ns podName containerName pathToCopy isToBeDecrypted passphrase s
      (Ctl.next s') ev) :
    (Event.sleep 2 ∈ ev → s'.attempt = 2) ∧ (s.attempt = 2 → s'.attempt = 2) := by
  cases h with
  | mkdir r1 ctl tl hend =>
    cases hend with
    | sleep t ha _ =>
      simp only [attempts] at ha
      constructor
      · intro hm
        simpa using hm
      · intro h2
        omega
    | downgrade t hcopy => simp at hcopy
  | touch r1 r2 ctl tl h1 h2 hend =>
    cases hend with
    | sleep t ha _ =>
      simp only [attempts] at ha
      constructor
      · intro hm
        simpa using hm
      · intro h2
        omega
    | downgrade t hcopy => simp at hcopy
  | copy r1 r2 r3 ctl tl h1 h2 h3 h4 hend =>
    cases hend with
    | sleep t ha _ =>
      simp only [attempts] at ha
      constructor
      · intro hm
        simpa using hm
      · intro h2
        omega
    | downgrade t _ _ _ =>
      constructor
      · intro hm
        simp at hm
      · intro h2
        simpa using h2

theorem RoundEnd.third_end {attempt : Nat} {flag copy : Bool} {r : Resp}
    {ctl : Ctl (UploadState σ) (Option Str)} {tl : List Event}
    (h : RoundEnd isToBeDecrypted attempt flag copy r ctl tl) (ha : attempt = attempts)
    (hr : r.stderr ≠ []) (hq : copy = true → isToBeDecrypted = false) :
    ctl = Ctl.done (some (stderrError r.stderr)) ∧ tl = [] := by
  cases h with
  | sleep t hne _ => exact absurd ha hne
  | fail e _ hf =>
    rcases hf with ⟨-, -, rfl⟩ | ⟨-, hs | ⟨hc, hd⟩⟩
    · exact ⟨rfl, rfl⟩
    · exact absurd hs hr
    · rw [hq hc] at hd
      simp at hd
  | downgrade t hc hd _ =>
    rw [hq hc] at hd
    simp at hd
  | success hc _ hoff _ => exact absurd (hoff (hq hc)) hr

theorem Round.third {s : UploadState σ} {ctl : Ctl (UploadState σ) (Option Str)}
    {ev : List Event}
    (h : Round ns podName containerName pathToCopy isToBeDecrypted passphrase s ctl ev)
    (hs : s.attempt = 2) :
    ∀ pre c r post, ev = pre ++ Event.exec c r :: post →
      (r.stderr ≠ [] ∧ (c.stdin = true → isToBeDecrypted = false)) →
      ∃ res, ctl = Ctl.done res ∧ res = some (stderrError r.stderr) ∧ post = [] := by
  have ha : s.attempt + 1 = attempts := by simp [attempts, hs]
  intro pre c r post heq hq
  cases h with
  | mkdir r1 ctl tl hend =>
    rcases pre with _ | ⟨e1, pre⟩
    · simp only [List.nil_append, List.cons.injEq, Event.exec.injEq] at heq
      obtain ⟨⟨rfl, rfl⟩, rfl⟩ := heq
      obtain ⟨hctl, htl⟩ := hend.third_end ha hq.1 (by simp)
      exact ⟨_, hctl, rfl, htl⟩
    · have htl : tl = pre ++ Event.exec c r :: post := by
        simp only [List.cons_append, List.cons.injEq] at heq
        simp [heq]
      cases hend <;> rcases pre with _ | ⟨e2, pre⟩ <;> simp at htl
  | touch r1 r2 ctl tl h1 h2 hend =>
    rcases pre with _ | ⟨e1, _ | ⟨e2, pre⟩⟩
    · simp only [List.nil_append, List.cons.injEq, Event.exec.injEq] at heq
      obtain ⟨⟨-, rfl⟩, -⟩ := heq
      exact absurd h1 hq.1
    · simp only [List.cons_append, List.nil_append, List.cons.injEq, Event.exec.injEq,
        true_and] at heq
      obtain ⟨-, ⟨rfl, rfl⟩, rfl⟩ := heq
      obtain ⟨hctl, htl⟩ := hend.third_end ha hq.1 (by simp)
      exact ⟨_, hctl, rfl, htl⟩
    · have htl : tl = pre ++ Event.exec c r :: post := by
        simp only [List.cons_append, List.cons.injEq] at heq
        simp [heq]
      cases hend <;> rcases pre with _ | ⟨e3, pre⟩ <;> simp at htl
  | copy r1 r2 r3 ctl tl h1 h2 h3 h4 hend =>
    rcases pre with _ | ⟨e1, _ | ⟨e2, _ | ⟨e3, pre⟩⟩⟩
    · simp only [List.nil_append, List.cons.injEq, Event.exec.injEq] at heq
      obtain ⟨⟨-, rfl⟩, -⟩ := heq
      exact absurd h1 hq.1
    · simp only [List.cons_append, List.nil_append, List.cons.injEq, Event.exec.injEq,
        true_and] at heq
      obtain ⟨-, ⟨-, rfl⟩, -⟩ := heq
      exact absurd h3 hq.1
    · simp only [List.cons_append, List.nil_append, List.cons.injEq, Event.exec.injEq,
        true_and] at heq
      obtain ⟨-, -, ⟨rfl, rfl⟩, rfl⟩ := heq
      obtain ⟨hctl, htl⟩ := hend.third_end ha hq.1 (fun _ => hq.2 (by simp [copyCall]))
      exact ⟨_, hctl, rfl, htl⟩
    · have htl : tl = pre ++ Event.exec c r :: post := by
        simp only [List.cons_append, List.cons.injEq] at heq
        simp [heq]
      cases hend <;> rcases pre with _ | ⟨e4, pre⟩ <;> simp at htl

theorem uploadLoop_third (fuel : Nat) (s : UploadState σ) (res : Option Str)
    (ev : List Event)
    (h : uploadLoop E ns podName containerName pathToCopy isToBeDecrypted passphrase fuel s
      = some (res, ev)) :
    ∀ pre c r post, ev = pre ++ Event.exec c r :: post →
      (Event.sleep 2 ∈ pre ∨ s.attempt = 2) →
      (r.stderr ≠ [] ∧ (c.stdin = true → isToBeDecrypted = false)) →
      res = some (stderrError r.stderr) ∧ post = [] := by
  refine runLoop_third _ _ none (fun s : UploadState σ => s.attempt)
    (fun c r => r.stderr ≠ [] ∧ (c.stdin = true → isToBeDecrypted = false))
    (fun _ r res => res = some (stderrError r.stderr))
    ?_ ?_ ?_ fuel s res ev h
  · intro s ctl ev _ hb
    exact (uploadBody_round E ns podName containerName pathToCopy isToBeDecrypted
      passphrase s ctl ev hb).no_sleep_before_exec
  · intro s s' ev _ hb
    exact (uploadBody_round E ns podName containerName pathToCopy isToBeDecrypted
      passphrase s _ ev hb).third_next
  · intro s ctl ev _ hb hs
    exact (uploadBody_round E ns podName containerName pathToCopy isToBeDecrypted
      passphrase s ctl ev hb).third hs

end ThirdAttemptUpload

section ThirdAttemptTop

variable {σ : Type} (E : Transport σ) (probe : Str → Bool × Str)

theorem execBody_next (c : Call) (s s' : LoopState σ) (ev : List Event)
    (hc : decide (s.attempt < attempts) = true)
    (hb : execBody E c s = (Ctl.next s', ev)) :
    decide (s'.attempt < attempts) = true ∧ attempts - s'.attempt < attempts - s.attempt := by
  simp only [decide_eq_true_eq] at hc ⊢
  rcases execBody_shape E c s with ⟨res, hr, -⟩ | ⟨hr, hne⟩
  · rw [hr] at hb
    simp at hb
  · rw [hr] at hb
    simp only [Prod.mk.injEq, Ctl.next.injEq] at hb
    obtain ⟨rfl, -⟩ := hb
    simp only
    omega

theorem execLoop_returns (c : Call) (fuel : Nat) (tr : σ) (hfuel : 3 ≤ fuel) :
    ∃ x, execLoop E c fuel ⟨0, tr⟩ = some x :=
  runLoop_terminates (fun s : LoopState σ => decide (s.attempt < attempts))
    (execBody E c) none (fun s => attempts - s.attempt)
    (fun s hc => by
      simp only [decide_eq_true_eq] at hc
      show 0 < attempts - s.attempt
      omega)
    (fun s s' ev hc hb => execBody_next E c s s' ev hc hb)
    fuel ⟨0, tr⟩ (by simp [attempts]) (by simpa [attempts] using hfuel)

theorem DownloadFromK8s_returns (tr : σ) (path : Str) (fuel : Nat) (hfuel : 3 ≤ fuel) :
    ∃ x, DownloadFromK8s E probe fuel tr path = some x := by
  unfold DownloadFromK8s
  simp only
  cases validateK8sPath (strings.Split '/' path) with
  | some err => exact ⟨_, rfl⟩
  | none =>
    simp only
    obtain ⟨⟨r, ev⟩, hx⟩ := execLoop_returns E ⟨(initK8sVariables (strings.Split '/' path)).1,
      (initK8sVariables (strings.Split '/' path)).2.1,
      (initK8sVariables (strings.Split '/' path)).2.2.1,
      downloadCommand (probe (initK8sVariables (strings.Split '/' path)).1).1
        (probe (initK8sVariables (strings.Split '/' path)).1).2
        (initK8sVariables (strings.Split '/' path)).2.2.2, false, true⟩ fuel tr hfuel
    rw [hx]
    exact ⟨_, rfl⟩

theorem Clean_returns (tr : σ) (path : Str) (fuel : Nat) (hfuel : 3 ≤ fuel) :
    ∃ x, Clean E fuel tr path = some x := by
  unfold Clean
  simp only
  cases validateK8sPath (strings.Split '/' path) with
  | some err => exact ⟨_, rfl⟩
  | none =>
    simp only
    exact execLoop_returns E _ fuel tr hfuel

theorem UploadToK8s_returns (tr : σ) (toPath fromPath : Str) (fuel : Nat)
    (hfuel : 4 ≤ fuel) :
    ∃ x, UploadToK8s E probe fuel tr toPath fromPath = some x := by
  unfold UploadToK8s
  cases validateK8sPath (strings.Split '/' toPath) with
  | some err => exact ⟨_, rfl⟩
  | none =>
    simp only
    obtain ⟨⟨r, ev⟩, hx⟩ := uploadLoop_returns E
      (initK8sVariables (uploadSplit toPath fromPath)).1
      (initK8sVariables (uploadSplit toPath fromPath)).2.1
      (initK8sVariables (uploadSplit toPath fromPath)).2.2.1
      (initK8sVariables (uploadSplit toPath fromPath)).2.2.2
      (probe (initK8sVariables (uploadSplit toPath fromPath)).1).1
      (probe (initK8sVariables (uploadSplit toPath fromPath)).1).2
      fuel ⟨0, false, tr⟩ (by simp [attempts])
      (le_trans (uploadMeasure_init _ tr) hfuel)
    rw [hx]
    exact ⟨_, rfl⟩

theorem probe_cons_split {n : Str} {ev0 pre post : List Event} {c : Call} {r : Resp}
    (h : Event.probe n :: ev0 = pre ++ Event.exec c r :: post) :
    ∃ pre0, pre = Event.probe n :: pre0 ∧ ev0 = pre0 ++ Event.exec c r :: post := by
  rcases pre with _ | ⟨x, pre⟩
  · simp at h
  · simp only [List.cons_append, List.cons.injEq] at h
    exact ⟨pre, by rw [h.1], h.2⟩

theorem GetListOfFilesFromK8s_third (tr : σ) (path findType findName : Str) (fuel : Nat)
    (res : List Str × Option Str) (ev : List Event)
    (h : GetListOfFilesFromK8s E fuel tr path findType findName = some (res, ev)) :
    ∀ pre c r post, ev = pre ++ Event.exec c r :: post → Event.sleep 2 ∈ pre →
      r.stderr ≠ [] → '%' ∉ r.stderr →
      res = ([], some ("STDERR: ".toList ++ r.stderr)) ∧ post = [] := by
  intro pre c r post heq hsleep hne hpct
  unfold GetListOfFilesFromK8s at h
  simp only at h
  cases hv : validateK8sPath (strings.Split '/' path) with
  | some err =>
    rw [hv] at h
    simp only [Option.some.injEq, Prod.mk.injEq] at h
    obtain ⟨-, rfl⟩ := h
    simp at heq
  | none =>
    rw [hv] at h
    simp only at h
    rw [← stderrError_plain _ hpct]
    exact listLoop_third E _ _ fuel _ res ev h pre c r post heq (Or.inl hsleep) hne

theorem DownloadFromK8s_third (tr : σ) (path : Str) (fuel : Nat)
    (res : Option Str) (ev : List Event)
    (h : DownloadFromK8s E probe fuel tr path = some (res, ev)) :
    ∀ pre c r post, ev = pre ++ Event.exec c r :: post → Event.sleep 2 ∈ pre →
      r.stderr ≠ [] → '%' ∉ r.stderr →
      res = some ("STDERR: ".toList ++ r.stderr) ∧ post = [] := by
  intro pre c r post heq hsleep hne hpct
  unfold DownloadFromK8s at h
  simp only at h
  cases hv : validateK8sPath (strings.Split '/' path) with
  | some err =>
    rw [hv] at h
    simp only [Option.some.injEq, Prod.mk.injEq] at h
    obtain ⟨-, rfl⟩ := h
    simp at heq
  | none =>
    rw [hv] at h
    simp only at h
    split at h
    · simp at h
    · next r0 ev0 hx =>
      simp only [Option.some.injEq, Prod.mk.injEq] at h
      obtain ⟨rfl, rfl⟩ := h
      obtain ⟨pre0, rfl, heq0⟩ := probe_cons_split heq
      simp only [List.mem_cons, reduceCtorEq, false_or] at hsleep
      rw [← stderrError_plain _ hpct]
      exact execLoop_third E _ fuel _ r0 ev0 hx pre0 c r post heq0 (Or.inl hsleep) hne

theorem Clean_third (tr : σ) (path : Str) (fuel : Nat)
    (res : Option Str) (ev : List Event)
    (h : Clean E fuel tr path = some (res, ev)) :
    ∀ pre c r post, ev = pre ++ Event.exec c r :: post → Event.sleep 2 ∈ pre →
      r.stderr ≠ [] → '%' ∉ r.stderr →
      res = some ("STDERR: ".toList ++ r.stderr) ∧ post = [] := by
  intro pre c r post heq hsleep hne hpct
  unfold Clean at h
  simp only at h
  cases hv : validateK8sPath (strings.Split '/' path) with
  | some err =>
    rw [hv] at h
    simp only [Option.some.injEq, Prod.mk.injEq] at h
    obtain ⟨-, rfl⟩ := h
    simp at heq
  | none =>
    rw [hv] at h
    simp only at h
    rw [← stderrError_plain _ hpct]
    exact execLoop_third E _ fuel _ res ev h pre c r post heq (Or.inl hsleep) hne

theorem UploadToK8s_third (tr : σ) (toPath fromPath : Str) (fuel : Nat)
    (res : Option Str) (ev : List Event)
    (h : UploadToK8s E probe fuel tr toPath fromPath = some (res, ev)) :
    ∀ pre c r post, ev = pre ++ Event.exec c r :: post → Event.sleep 2 ∈ pre →
      r.stderr ≠ [] → '%' ∉ r.stderr →
      (c.stdin = true →
        (probe (initK8sVariables (uploadSplit toPath fromPath)).1).1 = false) →
      res = some ("STDERR: ".toList ++ r.stderr) ∧ post = [] := by
  intro pre c r post heq hsleep hne hpct hcopy
  unfold UploadToK8s at h
  cases hv : validateK8sPath (strings.Split '/' toPath) with
  | some err =>
    rw [hv] at h
    simp only [Option.some.injEq, Prod.mk.injEq] at h
    obtain ⟨-, rfl⟩ := h
    simp at heq
  | none =>
    rw [hv] at h
    simp only at h
    split at h
    · simp at h
    · next r0 ev0 hx =>
      simp only [Option.some.injEq, Prod.mk.injEq] at h
      obtain ⟨rfl, rfl⟩ := h
      obtain ⟨pre0, rfl, heq0⟩ := probe_cons_split heq
      simp only [List.mem_cons, reduceCtorEq, false_or] at hsleep
      rw [← stderrError_plain _ hpct]
      exact uploadLoop_third E fuel _ r0 ev0 hx pre0 c r post heq0 (Or.inl hsleep)
        ⟨hne, hcopy⟩

/-- The listing of the example target whose first two attempts fail on a
transport error and whose third returns standard error `boom`. -/
theorem findCall_demo :
    GetListOfFilesFromK8s (scripted [errResp, errResp, boomResp]) 3 0 demoPath "f".toList
        "*".toList
      = some (([], some "STDERR: boom".toList),
        [Event.exec ⟨"ns".toList, "pod".toList, "c".toList,
            ["find".toList, "/tmp/a/b".toList, "-type".toList, "f".toList, "-name".toList,
              "*".toList], false, true⟩ errResp,
          Event.sleep 1,
          Event.exec ⟨"ns".toList, "pod".toList, "c".toList,
            ["find".toList, "/tmp/a/b".toList, "-type".toList, "f".toList, "-name".toList,
              "*".toList], false, true⟩ errResp,
          Event.sleep 2,
          Event.exec ⟨"ns".toList, "pod".toList, "c".toList,
            ["find".toList, "/tmp/a/b".toList, "-type".toList, "f".toList, "-name".toList,
              "*".toList], false, true⟩ boomResp]) := by
  decide

/-- C4, amended: each of list, read, remove and write returns within its bound
of rounds.  The third attempt of a call is what follows its back-off sleep of 2
seconds.  When an exec call of the third attempt returns non-empty standard
error `S` free of `%`, that call is the last event of the operation and the
operation returns the error `STDERR: ` followed by `S`, whether or not the
transport reported an error for that call.  For write this covers the `mkdir`
and `touch` steps, and the copy step when the encryption probe is disabled. -/
theorem final_attempt_stderr (tr : σ) (path findType findName fromPath : Str)
    (fuel : Nat) (hfuel : 3 ≤ fuel) :
    (∃ res ev, GetListOfFilesFromK8s E fuel tr path findType findName = some (res, ev) ∧
        ∀ pre c r post, ev = pre ++ Event.exec c r :: post → Event.sleep 2 ∈ pre →
          r.stderr ≠ [] → '%' ∉ r.stderr →
          res = ([], some ("STDERR: ".toList ++ r.stderr)) ∧ post = []) ∧
      (∃ res ev, DownloadFromK8s E probe fuel tr path = some (res, ev) ∧
        ∀ pre c r post, ev = pre ++ Event.exec c r :: post → Event.sleep 2 ∈ pre →
          r.stderr ≠ [] → '%' ∉ r.stderr →
          res = some ("STDERR: ".toList ++ r.stderr) ∧ post = []) ∧
      (∃ res ev, Clean E fuel tr path = some (res, ev) ∧
        ∀ pre c r post, ev = pre ++ Event.exec c r :: post → Event.sleep 2 ∈ pre →
          r.stderr ≠ [] → '%' ∉ r.stderr →
          res = some ("STDERR: ".toList ++ r.stderr) ∧ post = []) ∧
      (∃ res ev, UploadToK8s E probe (fuel + 1) tr path fromPath = some (res, ev) ∧
        ∀ pre c r post, ev = pre ++ Event.exec c r :: post → Event.sleep 2 ∈ pre →
          r.stderr ≠ [] → '%' ∉ r.stderr →
          (c.stdin = true →
            (probe (initK8sVariables (uploadSplit path fromPath)).1).1 = false) →
          res = some ("STDERR: ".toList ++ r.stderr) ∧ post = []) := by
  obtain ⟨⟨r1, e1⟩, h1⟩ := GetListOfFilesFromK8s_returns E tr path findType findName fuel hfuel
  obtain ⟨⟨r2, e2⟩, h2⟩ := DownloadFromK8s_returns E probe tr path fuel hfuel
  obtain ⟨⟨r3, e3⟩, h3⟩ := Clean_returns E tr path fuel hfuel
  obtain ⟨⟨r4, e4⟩, h4⟩ := UploadToK8s_returns E probe tr path fromPath (fuel + 1) (by omega)
  exact ⟨⟨r1, e1, h1, GetListOfFilesFromK8s_third E tr path findType findName fuel r1 e1 h1⟩,
    ⟨r2, e2, h2, DownloadFromK8s_third E probe tr path fuel r2 e2 h2⟩,
    ⟨r3, e3, h3, Clean_third E tr path fuel r3 e3 h3⟩,
    ⟨r4, e4, h4, UploadToK8s_third E probe tr path fromPath (fuel + 1) r4 e4 h4⟩⟩

/-- Witness of the amended C4: a listing whose first two attempts fail on a
transport error and whose third returns standard error `boom` together with a
transport error; the call returns `STDERR: boom`. -/
theorem final_attempt_stderr_witness :
    3 ≤ 3 ∧
      (GetListOfFilesFromK8s (scripted [errResp, errResp, boomResp]) 3 0 demoPath "f".toList
        "*".toList).map (fun x => x.1)
        = some ([], some ("STDERR: ".toList ++ boomResp.stderr)) := by
  refine ⟨by decide, ?_⟩
  obtain ⟨⟨res, ev, h, hthird⟩, -⟩ := final_attempt_stderr
    (scripted [errResp, errResp, boomResp]) probeOff 0 demoPath "f".toList "*".toList
    "x".toList 3 (by decide)
  rw [findCall_demo] at h
  simp only [Option.some.injEq, Prod.mk.injEq] at h
  obtain ⟨rfl, rfl⟩ := h
  rw [findCall_demo]
  have := (hthird
    [Event.exec ⟨"ns".toList, "pod".toList, "c".toList,
        ["find".toList, "/tmp/a/b".toList, "-type".toList, "f".toList, "-name".toList,
          "*".toList], false, true⟩ errResp,
      Event.sleep 1,
      Event.exec ⟨"ns".toList, "pod".toList, "c".toList,
        ["find".toList, "/tmp/a/b".toList, "-type".toList, "f".toList, "-name".toList,
          "*".toList], false, true⟩ errResp,
      Event.sleep 2] _ boomResp [] rfl (by simp) (by decide) (by decide)).1
  rw [this]
  rfl

end ThirdAttemptTop

end Skbn
